import Mathlib

/-!
Verification development for `src/multiplayer.js`: the signaling token codec
(`utf8ToB64` / `b64ToUtf8` / `encodePayload` / `decodePayload`), the bounded
ICE-gathering wait (`waitForIceGatheringComplete`), the session operations
(`createLobby`, `joinFromOfferString`, `setAnswerFromString`, `close`) and the
message dispatcher (`send`, the `onmessage` handler, `_emit`).

Strings are modelled as `List Char` (Unicode scalar values).  The JavaScript
`JSON` builtins are embedded concretely: `stringify` mirrors `JSON.stringify`
(insertion-ordered keys, no whitespace, the standard escaping rules) and
`parseValue`/`jsonParse` mirror `JSON.parse` on the value space in play
(numbers are the integers that occur in signaling payloads; insignificant
whitespace, which no payload in this module ever contains, is not modelled).
-/

/-- JSON values as handled by the JavaScript `JSON` builtins, with numbers
restricted to integers (the only numbers occurring in signaling payloads and
`Date.now()` timestamps).  Object members are kept in insertion order, the
order `JSON.stringify` serializes them in. -/
inductive Json where
  | null
  | bool (b : Bool)
  | num (n : Int)
  | str (s : List Char)
  | arr (elems : List Json)
  | obj (members : List (List Char × Json))

mutual

/-- Boolean equality on JSON values (structural). -/
def Json.beq : Json → Json → Bool
  | .null, .null => true
  | .bool a, .bool b => a == b
  | .num a, .num b => a == b
  | .str a, .str b => a == b
  | .arr xs, .arr ys => Json.beqElems xs ys
  | .obj xs, .obj ys => Json.beqMembers xs ys
  | _, _ => false

/-- Boolean equality on element lists. -/
def Json.beqElems : List Json → List Json → Bool
  | [], [] => true
  | x :: xs, y :: ys => Json.beq x y && Json.beqElems xs ys
  | _, _ => false

/-- Boolean equality on member lists. -/
def Json.beqMembers : List (List Char × Json) → List (List Char × Json) → Bool
  | [], [] => true
  | (k1, v1) :: xs, (k2, v2) :: ys =>
      k1 == k2 && Json.beq v1 v2 && Json.beqMembers xs ys
  | _, _ => false

end

mutual

theorem Json.beq_iff : ∀ a b : Json, Json.beq a b = true ↔ a = b
  | a, b => by
    cases a <;> cases b <;>
      first
        | (simp [Json.beq]; done)
        | (rename_i xs ys
           simp only [Json.beq]
           rw [Json.beqElems_iff xs ys]
           simp)
        | (rename_i xs ys
           simp only [Json.beq]
           rw [Json.beqMembers_iff xs ys]
           simp)

theorem Json.beqElems_iff : ∀ xs ys : List Json, Json.beqElems xs ys = true ↔ xs = ys
  | [], [] => by simp [Json.beqElems]
  | [], _ :: _ => by simp [Json.beqElems]
  | _ :: _, [] => by simp [Json.beqElems]
  | x :: xs, y :: ys => by
    simp only [Json.beqElems, Bool.and_eq_true, List.cons.injEq,
      Json.beq_iff x y, Json.beqElems_iff xs ys]

theorem Json.beqMembers_iff :
    ∀ xs ys : List (List Char × Json), Json.beqMembers xs ys = true ↔ xs = ys
  | [], [] => by simp [Json.beqMembers]
  | [], _ :: _ => by simp [Json.beqMembers]
  | _ :: _, [] => by simp [Json.beqMembers]
  | (k1, v1) :: xs, (k2, v2) :: ys => by
    simp only [Json.beqMembers, Bool.and_eq_true, List.cons.injEq, Prod.mk.injEq,
      beq_iff_eq, Json.beq_iff v1 v2, Json.beqMembers_iff xs ys, and_assoc]

end

instance : DecidableEq Json := fun a b => decidable_of_iff _ (Json.beq_iff a b)

/-- Decimal digit character, `48 + d` is the code of `'0' + d`. -/
def digitChar (d : Nat) : Char := Char.ofNat (48 + d)

/-- Fuel-driven implementation of decimal digit conversion (structural in the
fuel, so that it reduces by evaluation); the fuel never runs out when it
starts at the number itself. -/
def natToDigitsFuel : Nat → Nat → List Char
  | 0, n => [digitChar n]
  | f + 1, n =>
      if n < 10 then [digitChar n]
      else natToDigitsFuel f (n / 10) ++ [digitChar (n % 10)]

/-- Decimal digits of `n`, most significant first (the output of JavaScript
number-to-string conversion for a nonnegative integer). -/
def natToDigits (n : Nat) : List Char := natToDigitsFuel n n

theorem natToDigitsFuel_congr :
    ∀ f g n : Nat, n ≤ f → n ≤ g → natToDigitsFuel f n = natToDigitsFuel g n := by
  intro f
  induction f with
  | zero =>
    intro g n hf _
    interval_cases n
    cases g <;> simp [natToDigitsFuel]
  | succ f ih =>
    intro g n hf hg
    cases g with
    | zero =>
      interval_cases n
      simp [natToDigitsFuel]
    | succ g =>
      simp only [natToDigitsFuel]
      by_cases h : n < 10
      · simp [h]
      · simp only [h, if_false]
        have h1 : n / 10 ≤ f := by omega
        have h2 : n / 10 ≤ g := by omega
        rw [ih g (n / 10) h1 h2]

/-- Recursion equation for `natToDigits`. -/
theorem natToDigits_eq (n : Nat) :
    natToDigits n = if n < 10 then [digitChar n]
      else natToDigits (n / 10) ++ [digitChar (n % 10)] := by
  by_cases h : n < 10
  · cases n with
    | zero => simp [natToDigits, natToDigitsFuel, h]
    | succ m => simp [natToDigits, natToDigitsFuel, h]
  · cases n with
    | zero => omega
    | succ m =>
      simp only [natToDigits, natToDigitsFuel, h, if_false]
      rw [natToDigitsFuel_congr m ((m + 1) / 10) ((m + 1) / 10) (by omega) (by omega)]

/-- Lowercase hex digit character, as produced by `JSON.stringify` in
`\u00XX` escapes. -/
def hexDigitChar (d : Nat) : Char :=
  if d < 10 then Char.ofNat (48 + d) else Char.ofNat (87 + d)

/-- The `\u00XX` escape of a control character code. -/
def uEscape (n : Nat) : List Char :=
  '\\' :: ('u' :: ('0' :: ('0' :: (hexDigitChar (n / 16) :: [hexDigitChar (n % 16)]))))

/-- Escaping of one character inside a JSON string literal, following
`JSON.stringify`: `"` and `\` get a backslash escape, the five named control
escapes are used where available, all other control characters become
`\u00XX`, and everything else is emitted verbatim. -/
def escChar (c : Char) : List Char :=
  if c = '"' then ['\\', '"']
  else if c = '\\' then ['\\', '\\']
  else if c = Char.ofNat 8 then ['\\', 'b']
  else if c = Char.ofNat 12 then ['\\', 'f']
  else if c = '\n' then ['\\', 'n']
  else if c = Char.ofNat 13 then ['\\', 'r']
  else if c = '\t' then ['\\', 't']
  else if c.toNat < 32 then uEscape c.toNat
  else [c]

/-- Escape a whole string body. -/
def escapeList : List Char → List Char
  | [] => []
  | c :: cs => escChar c ++ escapeList cs

/-- The keyword a boolean prints as. -/
def boolChars (b : Bool) : List Char :=
  if b then "true".toList else "false".toList

/-- An integer in JavaScript decimal notation: optional minus sign, then the
decimal digits. -/
def intToDigits : Int → List Char
  | Int.ofNat n => natToDigits n
  | Int.negSucc n => '-' :: natToDigits (n + 1)

mutual

/-- `JSON.stringify` (no indentation): members in insertion order, no
insignificant whitespace. -/
def stringify : Json → List Char
  | .null => "null".toList
  | .bool b => boolChars b
  | .num i => intToDigits i
  | .str s => '"' :: (escapeList s ++ ['"'])
  | .arr xs => '[' :: (stringifyItems xs ++ [']'])
  | .obj kvs => '{' :: (stringifyMembers kvs ++ ['}'])

/-- Comma-separated serialization of array elements. -/
def stringifyItems : List Json → List Char
  | [] => []
  | [x] => stringify x
  | x :: y :: rest => stringify x ++ (',' :: stringifyItems (y :: rest))

/-- Comma-separated serialization of object members (`"key":value`). -/
def stringifyMembers : List (List Char × Json) → List Char
  | [] => []
  | [(k, v)] => '"' :: (escapeList k ++ ('"' :: (':' :: stringify v)))
  | (k, v) :: m :: rest =>
      ('"' :: (escapeList k ++ ('"' :: (':' :: stringify v)))) ++
        (',' :: stringifyMembers (m :: rest))

end

example : stringify (Json.num 0) = ['0'] := by decide
example : stringify (Json.num (-12)) = ['-', '1', '2'] := by decide
example : stringify (Json.obj [("a".toList, Json.arr [Json.null, Json.bool true])]) =
    "\x7b\"a\":[null,true]\x7d".toList := by decide

/-- Decimal digit test (`'0'` through `'9'`). -/
def isDigitChar (c : Char) : Bool := 48 ≤ c.toNat && c.toNat ≤ 57

/-- Numeric value of a decimal digit character. -/
def digitVal (c : Char) : Nat := c.toNat - 48

/-- Consume a maximal run of decimal digits, accumulating their value onto
`acc`; returns the value and the unconsumed remainder. -/
def parseDigits (acc : Nat) : List Char → Nat × List Char
  | [] => (acc, [])
  | c :: cs =>
      if isDigitChar c then parseDigits (acc * 10 + digitVal c) cs else (acc, c :: cs)

/-- Numeric value of a hexadecimal digit character (either case), `none` for
anything else. -/
def hexVal (c : Char) : Option Nat :=
  if 48 ≤ c.toNat && c.toNat ≤ 57 then some (c.toNat - 48)
  else if 97 ≤ c.toNat && c.toNat ≤ 102 then some (c.toNat - 87)
  else if 65 ≤ c.toNat && c.toNat ≤ 70 then some (c.toNat - 55)
  else none

/-- Parse the body of a JSON string literal (the part after the opening
quote), returning the decoded characters and the remainder after the closing
quote.  Escapes follow the JSON grammar; an unescaped control character is a
parse error, as in `JSON.parse`. -/
def parseStringBody : List Char → Option (List Char × List Char)
  | [] => none
  | c :: cs =>
    if c = '"' then some ([], cs)
    else if c = '\\' then
      match cs with
      | [] => none
      | e :: cs2 =>
        if e = '"' then (parseStringBody cs2).map (fun p => ('"' :: p.1, p.2))
        else if e = '\\' then (parseStringBody cs2).map (fun p => ('\\' :: p.1, p.2))
        else if e = '/' then (parseStringBody cs2).map (fun p => ('/' :: p.1, p.2))
        else if e = 'b' then (parseStringBody cs2).map (fun p => (Char.ofNat 8 :: p.1, p.2))
        else if e = 'f' then (parseStringBody cs2).map (fun p => (Char.ofNat 12 :: p.1, p.2))
        else if e = 'n' then (parseStringBody cs2).map (fun p => ('\n' :: p.1, p.2))
        else if e = 'r' then (parseStringBody cs2).map (fun p => (Char.ofNat 13 :: p.1, p.2))
        else if e = 't' then (parseStringBody cs2).map (fun p => ('\t' :: p.1, p.2))
        else if e = 'u' then
          match cs2 with
          | h1 :: h2 :: h3 :: h4 :: cs3 =>
            match hexVal h1, hexVal h2, hexVal h3, hexVal h4 with
            | some a, some b, some c2, some d =>
                (parseStringBody cs3).map
                  (fun p => (Char.ofNat (a * 4096 + b * 256 + c2 * 16 + d) :: p.1, p.2))
            | _, _, _, _ => none
          | _ => none
        else none
    else if c.toNat < 32 then none
    else (parseStringBody cs).map (fun p => (c :: p.1, p.2))

/-- JSON insignificant whitespace: space, horizontal tab, line feed and
carriage return (grammar `ws` of RFC 8259, as implemented by `JSON.parse`). -/
def isWsChar (c : Char) : Bool :=
  c.toNat == 32 || c.toNat == 9 || c.toNat == 10 || c.toNat == 13

/-- Drop leading insignificant whitespace. -/
def skipWs : List Char → List Char
  | [] => []
  | c :: cs => if isWsChar c then skipWs cs else c :: cs

/-- Recognize the optional exponent part of a number token: `e` or `E`, an
optional sign, then one or more digits.  Returns whether an exponent was
present (making the number non-integral in general) and the remainder; a
bare `e` with no digits is a parse error, as in `JSON.parse`. -/
def parseExpPart (cs : List Char) : Option (Bool × List Char) :=
  match cs with
  | [] => some (false, [])
  | c :: cs1 =>
    if c = 'e' ∨ c = 'E' then
      match cs1 with
      | [] => none
      | d :: cs2 =>
        if d = '+' ∨ d = '-' then
          match cs2 with
          | [] => none
          | d2 :: cs3 =>
            if isDigitChar d2 then some (true, (parseDigits (digitVal d2) cs3).2)
            else none
        else if isDigitChar d then some (true, (parseDigits (digitVal d) cs2).2)
        else none
    else some (false, c :: cs1)

/-- Recognize the optional fraction-then-exponent tail of a number token
(`.` digits, then `parseExpPart`).  The Boolean is true when a fraction or
exponent was present, flagging a number the model cannot represent as an
integer; a bare `.` with no digit is a parse error, as in `JSON.parse`. -/
def parseNumTail (cs : List Char) : Option (Bool × List Char) :=
  match cs with
  | [] => some (false, [])
  | c :: cs1 =>
    if c = '.' then
      match cs1 with
      | [] => none
      | d :: cs2 =>
        if isDigitChar d then
          (parseExpPart (parseDigits (digitVal d) cs2).2).map (fun p => (true, p.2))
        else none
    else parseExpPart (c :: cs1)

/-- Concatenate two optional lists, propagating unrepresentability: the
whole list is modelled only when every element is. -/
def joinVal {α : Type} : Option (List α) → Option (List α) → Option (List α)
  | some xs, some ys => some (xs ++ ys)
  | _, _ => none


mutual

/-- Recursive-descent parser for one JSON value, mirroring `JSON.parse` over
the full RFC 8259 grammar: insignificant whitespace, the leading-zero rule
(a numeral starting `0` has no further integer digits) and fraction/exponent
number tokens are all recognized exactly.  The result pairs the remainder
with `some` value, or with `none` when the text is grammatical but its value
falls outside the modelled space (it contains a non-integer number, which
the engine would represent as a floating-point double).  `fuel` bounds the
nesting of recursive calls and is chosen large enough by `jsonParse` and
`jsonAccepts` that it never runs out before the input does. -/
def parseValue : Nat → List Char → Option (Option Json × List Char)
  | 0, _ => none
  | _ + 1, [] => none
  | fuel + 1, c :: cs =>
    if c = 'n' then
      match cs with
      | 'u' :: 'l' :: 'l' :: rest => some (some Json.null, rest)
      | _ => none
    else if c = 't' then
      match cs with
      | 'r' :: 'u' :: 'e' :: rest => some (some (Json.bool true), rest)
      | _ => none
    else if c = 'f' then
      match cs with
      | 'a' :: 'l' :: 's' :: 'e' :: rest => some (some (Json.bool false), rest)
      | _ => none
    else if c = '"' then
      (parseStringBody cs).map (fun p => (some (Json.str p.1), p.2))
    else if c = '-' then
      match cs with
      | [] => none
      | d :: rest =>
        if d = '0' then
          (parseNumTail rest).map
            (fun p => (if p.1 then none else some (Json.num 0), p.2))
        else if isDigitChar d then
          let r := parseDigits (digitVal d) rest
          (parseNumTail r.2).map
            (fun p => (if p.1 then none else some (Json.num (-(r.1 : Int))), p.2))
        else none
    else if c = '0' then
      (parseNumTail cs).map
        (fun p => (if p.1 then none else some (Json.num 0), p.2))
    else if isDigitChar c then
      let r := parseDigits (digitVal c) cs
      (parseNumTail r.2).map
        (fun p => (if p.1 then none else some (Json.num (r.1 : Int)), p.2))
    else if c = '[' then
      match skipWs cs with
      | [] => none
      | d :: rest =>
        if d = ']' then some (some (Json.arr []), rest)
        else (parseElems fuel (d :: rest)).map
          (fun p => (p.1.map Json.arr, p.2))
    else if c = '{' then
      match skipWs cs with
      | [] => none
      | d :: rest =>
        if d = '}' then some (some (Json.obj []), rest)
        else (parseMembers fuel (d :: rest)).map
          (fun p => (p.1.map Json.obj, p.2))
    else none

/-- Parse a nonempty comma-separated element list followed by `]`, skipping
the whitespace the grammar allows around elements (the leading whitespace of
the first element has already been consumed by the caller). -/
def parseElems : Nat → List Char → Option (Option (List Json) × List Char)
  | 0, _ => none
  | fuel + 1, cs =>
    match parseValue fuel cs with
    | none => none
    | some (v, rest) =>
      match skipWs rest with
      | ',' :: rest2 =>
        (parseElems fuel (skipWs rest2)).map
          (fun p => (joinVal (v.map (fun x => [x])) p.1, p.2))
      | ']' :: rest2 => some (v.map (fun x => [x]), rest2)
      | _ => none

/-- Parse a nonempty comma-separated member list followed by `}`, skipping
the whitespace the grammar allows around keys and values. -/
def parseMembers : Nat → List Char → Option (Option (List (List Char × Json)) × List Char)
  | 0, _ => none
  | fuel + 1, cs =>
    match cs with
    | '"' :: cs1 =>
      match parseStringBody cs1 with
      | none => none
      | some (k, rest1) =>
        match skipWs rest1 with
        | ':' :: rest2 =>
          match parseValue fuel (skipWs rest2) with
          | none => none
          | some (v, rest3) =>
            match skipWs rest3 with
            | ',' :: rest4 =>
              (parseMembers fuel (skipWs rest4)).map
                (fun p => (joinVal (v.map (fun x => [(k, x)])) p.1, p.2))
            | '}' :: rest4 => some (v.map (fun x => [(k, x)]), rest4)
            | _ => none
        | _ => none
    | _ => none

end

/-- `JSON.parse`, partially: `some` exactly on grammatical text whose value
lies in the modelled (integer-numbered) space, `none` both on text the
engine rejects and on grammatical text carrying non-integer numbers —
`jsonAccepts` below separates the two. -/
def jsonParse (s : List Char) : Option Json :=
  match parseValue (s.length + 1) (skipWs s) with
  | some (some j, rest) => if skipWs rest = [] then some j else none
  | _ => none

/-- Whether `JSON.parse` accepts the text: the full grammar, independently of
whether the value is representable in the model. -/
def jsonAccepts (s : List Char) : Bool :=
  match parseValue (s.length + 1) (skipWs s) with
  | some (_, rest) => decide (skipWs rest = [])
  | none => false

theorem jsonAccepts_false_parse_none (s : List Char) (h : jsonAccepts s = false) :
    jsonParse s = none := by
  rw [jsonAccepts] at h
  rw [jsonParse]
  cases hp : parseValue (s.length + 1) (skipWs s) with
  | none => rfl
  | some p =>
    obtain ⟨v, rest⟩ := p
    rw [hp] at h
    simp only [decide_eq_false_iff_not] at h
    cases v with
    | none => rfl
    | some j => simp [h]

example : jsonParse "\x7b\x7d".toList = some (Json.obj []) := by decide
example : jsonParse "\x7bnot json".toList = none := by decide
example : jsonParse "[12,-3,\"a\",null,true]".toList =
    some (Json.arr [Json.num 12, Json.num (-3), Json.str ['a'], Json.null, Json.bool true]) := by
  decide
example : jsonParse (stringify (Json.obj [("k".toList, Json.str ['\n', 'x'])])) =
    some (Json.obj [("k".toList, Json.str ['\n', 'x'])]) := by decide
example : jsonParse " \x7b \"a\" : [ 1 , true ] \x7d ".toList =
    some (Json.obj [("a".toList, Json.arr [Json.num 1, Json.bool true])]) := by decide
example : jsonParse "01".toList = none ∧ jsonAccepts "01".toList = false := by decide
example : jsonParse "-01".toList = none ∧ jsonAccepts "-01".toList = false := by decide
example : jsonParse "1.5".toList = none ∧ jsonAccepts "1.5".toList = true := by decide
example : jsonParse "-0.5e-10".toList = none ∧ jsonAccepts "-0.5e-10".toList = true := by decide
example : jsonParse "1e".toList = none ∧ jsonAccepts "1e".toList = false := by decide
example : jsonAccepts "[1,]".toList = false ∧ jsonAccepts "[ ]".toList = true := by decide

/-- Characters that cannot continue a serialized number token: anything but
a digit, a decimal point, or an exponent marker (used to show the
maximal-munch number scan stops exactly at the separator). -/
def restOk : List Char → Bool
  | [] => true
  | c :: _ => !(isDigitChar c || c == '.' || c == 'e' || c == 'E')

theorem digitChar_isDigit (d : Nat) (h : d < 10) :
    isDigitChar (digitChar d) = true ∧ digitVal (digitChar d) = d := by
  interval_cases d <;> exact ⟨by decide, by decide⟩

theorem natToDigits_spec (n : Nat) :
    natToDigits n ≠ [] ∧ ∀ c ∈ natToDigits n, isDigitChar c = true := by
  induction n using Nat.strong_induction_on with
  | _ n ih =>
    rw [natToDigits_eq]
    by_cases h : n < 10
    · simp only [h, if_true]
      refine ⟨by simp, ?_⟩
      intro c hc
      simp at hc
      subst hc
      exact (digitChar_isDigit n h).1
    · simp only [h, if_false]
      refine ⟨by simp, ?_⟩
      intro c hc
      rcases List.mem_append.mp hc with hc | hc
      · exact (ih (n / 10) (by omega)).2 c hc
      · simp at hc
        subst hc
        exact (digitChar_isDigit (n % 10) (by omega)).1

theorem parseDigits_natToDigits (n : Nat) :
    ∀ (acc : Nat) (rest : List Char),
      parseDigits acc (natToDigits n ++ rest)
        = parseDigits (acc * 10 ^ (natToDigits n).length + n) rest := by
  induction n using Nat.strong_induction_on with
  | _ n ih =>
    intro acc rest
    rw [natToDigits_eq]
    by_cases h : n < 10
    · simp only [h, if_true, List.singleton_append, List.length_singleton]
      rw [parseDigits]
      simp [(digitChar_isDigit n h).1, (digitChar_isDigit n h).2]
    · simp only [h, if_false, List.append_assoc, List.singleton_append,
        List.length_append, List.length_singleton]
      rw [ih (n / 10) (by omega) acc (digitChar (n % 10) :: rest)]
      rw [parseDigits]
      simp only [(digitChar_isDigit (n % 10) (by omega)).1, if_true,
        (digitChar_isDigit (n % 10) (by omega)).2]
      congr 1
      have hdm := Nat.div_add_mod n 10
      rw [pow_succ, ← mul_assoc]
      omega

theorem parseDigits_stop (m : Nat) (rest : List Char) (h : restOk rest = true) :
    parseDigits m rest = (m, rest) := by
  cases rest with
  | nil => rfl
  | cons c t =>
    simp only [restOk, Bool.not_eq_true', Bool.or_eq_false_iff] at h
    simp [parseDigits, h.1.1.1]

theorem parseDigits_full (n : Nat) (rest : List Char) (hrest : restOk rest = true) :
    parseDigits 0 (natToDigits n ++ rest) = (n, rest) := by
  rw [parseDigits_natToDigits]
  simpa using parseDigits_stop n rest hrest

theorem parseDigits_head (d : Char) (hd : isDigitChar d = true) (t : List Char) :
    parseDigits (digitVal d) t = parseDigits 0 (d :: t) := by
  rw [parseDigits]
  simp [hd]

theorem isDigitChar_ne (c : Char) (h : isDigitChar c = true) :
    c ≠ 'n' ∧ c ≠ 't' ∧ c ≠ 'f' ∧ c ≠ '"' ∧ c ≠ '-' ∧ c ≠ '[' ∧ c ≠ '{' ∧
      c ≠ ']' ∧ c ≠ '}' ∧ c ≠ ',' ∧ c ≠ ':' := by
  have k : ∀ x : Char, isDigitChar x = false → c ≠ x := by
    intro x hx heq
    subst heq
    rw [h] at hx
    exact Bool.noConfusion hx
  exact ⟨k 'n' (by decide), k 't' (by decide), k 'f' (by decide), k '"' (by decide),
    k '-' (by decide), k '[' (by decide), k '{' (by decide), k ']' (by decide),
    k '}' (by decide), k ',' (by decide), k ':' (by decide)⟩

theorem isDigitChar_not_ws (c : Char) (h : isDigitChar c = true) : isWsChar c = false := by
  simp only [isDigitChar, Bool.and_eq_true, decide_eq_true_eq] at h
  simp only [isWsChar, Bool.or_eq_false_iff, beq_eq_false_iff_ne, ne_eq]
  omega

theorem skipWs_cons (c : Char) (cs : List Char) (h : isWsChar c = false) :
    skipWs (c :: cs) = c :: cs := by
  simp [skipWs, h]

theorem skipWs_rbrack (cs : List Char) : skipWs (']' :: cs) = ']' :: cs :=
  skipWs_cons _ _ (by decide)

theorem skipWs_rbrace (cs : List Char) : skipWs ('}' :: cs) = '}' :: cs :=
  skipWs_cons _ _ (by decide)

theorem skipWs_comma (cs : List Char) : skipWs (',' :: cs) = ',' :: cs :=
  skipWs_cons _ _ (by decide)

theorem skipWs_colon (cs : List Char) : skipWs (':' :: cs) = ':' :: cs :=
  skipWs_cons _ _ (by decide)

theorem natToDigits_head_ne_zero :
    ∀ n : Nat, 1 ≤ n → ∀ d ds, natToDigits n = d :: ds → d ≠ '0' := by
  intro n
  induction n using Nat.strong_induction_on with
  | _ n ih =>
    intro hn d ds hnd
    rw [natToDigits_eq] at hnd
    by_cases h : n < 10
    · simp only [h, if_true] at hnd
      injection hnd with h1 h2
      subst h1
      interval_cases n <;> decide
    · simp only [h, if_false] at hnd
      cases hq : natToDigits (n / 10) with
      | nil => exact absurd hq (natToDigits_spec (n / 10)).1
      | cons d2 ds2 =>
        rw [hq, List.cons_append] at hnd
        injection hnd with h1 h2
        exact h1 ▸ ih (n / 10) (by omega) (by omega) d2 ds2 hq

theorem parseNumTail_stop (rest : List Char) (h : restOk rest = true) :
    parseNumTail rest = some (false, rest) := by
  cases rest with
  | nil => rfl
  | cons c t =>
    simp only [restOk, Bool.not_eq_true', Bool.or_eq_false_iff,
      beq_eq_false_iff_ne, ne_eq] at h
    obtain ⟨⟨⟨hd, hdot⟩, he⟩, hE⟩ := h
    rw [parseNumTail.eq_def]
    simp only [hdot, if_false, reduceIte]
    rw [parseExpPart.eq_def]
    simp [he, hE]

theorem hexVal_hexDigitChar (x : Nat) (h : x < 16) : hexVal (hexDigitChar x) = some x := by
  interval_cases x <;> decide

theorem parseStringBody_escape (s : List Char) :
    ∀ rest : List Char, parseStringBody (escapeList s ++ ('"' :: rest)) = some (s, rest) := by
  induction s with
  | nil =>
    intro rest
    simp only [escapeList, List.nil_append]
    rw [parseStringBody.eq_def]
    simp
  | cons c s ih =>
    intro rest
    simp only [escapeList, List.append_assoc]
    by_cases h1 : c = '"'
    · subst h1
      rw [show escChar '"' = ['\\', '"'] from by decide]
      rw [List.cons_append, List.cons_append, List.nil_append, parseStringBody.eq_def]
      simp [ih]
    · by_cases h2 : c = '\\'
      · subst h2
        rw [show escChar '\\' = ['\\', '\\'] from by decide]
        rw [List.cons_append, List.cons_append, List.nil_append, parseStringBody.eq_def]
        simp [ih]
      · by_cases h3 : c = Char.ofNat 8
        · subst h3
          rw [show escChar (Char.ofNat 8) = ['\\', 'b'] from by decide]
          rw [List.cons_append, List.cons_append, List.nil_append, parseStringBody.eq_def]
          simp [ih]
        · by_cases h4 : c = Char.ofNat 12
          · subst h4
            rw [show escChar (Char.ofNat 12) = ['\\', 'f'] from by decide]
            rw [List.cons_append, List.cons_append, List.nil_append, parseStringBody.eq_def]
            simp [ih]
          · by_cases h5 : c = '\n'
            · subst h5
              rw [show escChar '\n' = ['\\', 'n'] from by decide]
              rw [List.cons_append, List.cons_append, List.nil_append, parseStringBody.eq_def]
              simp [ih]
            · by_cases h6 : c = Char.ofNat 13
              · subst h6
                rw [show escChar (Char.ofNat 13) = ['\\', 'r'] from by decide]
                rw [List.cons_append, List.cons_append, List.nil_append, parseStringBody.eq_def]
                simp [ih]
              · by_cases h7 : c = '\t'
                · subst h7
                  rw [show escChar '\t' = ['\\', 't'] from by decide]
                  rw [List.cons_append, List.cons_append, List.nil_append, parseStringBody.eq_def]
                  simp [ih]
                · by_cases h8 : c.toNat < 32
                  · simp only [escChar, uEscape, h1, h2, h3, h4, h5, h6, h7, h8, if_false,
                      if_true, List.cons_append, List.nil_append]
                    rw [parseStringBody.eq_def]
                    simp only [reduceIte]
                    rw [hexVal_hexDigitChar (c.toNat / 16) (by omega),
                      hexVal_hexDigitChar (c.toNat % 16) (by omega)]
                    simp only [ih rest]
                    have hc : c.toNat / 16 * 16 + c.toNat % 16 = c.toNat := by omega
                    simp [hexVal, hc, Char.ofNat_toNat]
                  · simp only [escChar, h1, h2, h3, h4, h5, h6, h7, h8, if_false,
                      List.cons_append, List.nil_append]
                    rw [parseStringBody.eq_def]
                    simp [h1, h2, h8, ih]

mutual

/-- Parser fuel sufficient for one value. -/
def fuelV : Json → Nat
  | .null => 1
  | .bool _ => 1
  | .num _ => 1
  | .str _ => 1
  | .arr xs => 1 + fuelE xs
  | .obj kvs => 1 + fuelM kvs

/-- Parser fuel sufficient for an element list. -/
def fuelE : List Json → Nat
  | [] => 1
  | x :: rest => 1 + max (fuelV x) (fuelE rest)

/-- Parser fuel sufficient for a member list. -/
def fuelM : List (List Char × Json) → Nat
  | [] => 1
  | kv :: rest => 1 + max (fuelV kv.2) (fuelM rest)

end

theorem fuelV_pos (j : Json) : 1 ≤ fuelV j := by
  cases j <;> simp [fuelV]

theorem stringify_head (j : Json) :
    ∃ c t, stringify j = c :: t ∧ isWsChar c = false ∧ c ≠ '}' ∧ c ≠ ']' := by
  cases j with
  | num i =>
    cases i with
    | ofNat n =>
      cases hnd : natToDigits n with
      | nil => exact absurd hnd (natToDigits_spec n).1
      | cons d ds =>
        have hd : isDigitChar d = true := (natToDigits_spec n).2 d (by rw [hnd]; simp)
        have hne := isDigitChar_ne d hd
        refine ⟨d, ds, by simpa [stringify, intToDigits] using hnd,
          isDigitChar_not_ws d hd, ?_, ?_⟩
        · exact hne.2.2.2.2.2.2.2.2.1
        · exact hne.2.2.2.2.2.2.2.1
    | negSucc n => exact ⟨'-', _, rfl, by decide, by decide, by decide⟩
  | null => exact ⟨'n', _, rfl, by decide, by decide, by decide⟩
  | bool b =>
    cases b
    · exact ⟨'f', _, rfl, by decide, by decide, by decide⟩
    · exact ⟨'t', _, rfl, by decide, by decide, by decide⟩
  | str s => exact ⟨'"', _, rfl, by decide, by decide, by decide⟩
  | arr xs => exact ⟨'[', _, rfl, by decide, by decide, by decide⟩
  | obj kvs => exact ⟨'{', _, rfl, by decide, by decide, by decide⟩

theorem stringifyItems_cons (x : Json) (t : List Json) :
    ∃ r, stringifyItems (x :: t) = stringify x ++ r := by
  cases t with
  | nil => exact ⟨[], by simp [stringifyItems]⟩
  | cons y t2 => exact ⟨',' :: stringifyItems (y :: t2), rfl⟩

theorem stringifyMembers_cons (k : List Char) (v : Json) (t : List (List Char × Json)) :
    ∃ r, stringifyMembers ((k, v) :: t) = '"' :: r := by
  cases t with
  | nil => exact ⟨escapeList k ++ ('"' :: (':' :: stringify v)), rfl⟩
  | cons m t2 =>
    exact ⟨(escapeList k ++ ('"' :: (':' :: stringify v))) ++
      (',' :: stringifyMembers (m :: t2)), rfl⟩

set_option synthInstance.maxHeartbeats 1000000 in
mutual

theorem parseValue_stringify :
    ∀ (j : Json) (fuel : Nat) (rest : List Char), fuelV j ≤ fuel → restOk rest = true →
      parseValue fuel (stringify j ++ rest) = some (some j, rest)
  | j, fuel, rest => fun hfuel hrest => by
    obtain ⟨f, rfl⟩ : ∃ f, fuel = f + 1 :=
      ⟨fuel - 1, by have := fuelV_pos j; omega⟩
    cases j with
    | null =>
      rw [show stringify Json.null ++ rest = 'n' :: ('u' :: ('l' :: ('l' :: rest))) from rfl]
      simp [parseValue]
    | bool b =>
      cases b
      · rw [show stringify (Json.bool false) ++ rest
            = 'f' :: ('a' :: ('l' :: ('s' :: ('e' :: rest)))) from rfl]
        simp [parseValue]
      · rw [show stringify (Json.bool true) ++ rest
            = 't' :: ('r' :: ('u' :: ('e' :: rest))) from rfl]
        simp [parseValue]
    | num i =>
      cases i with
      | ofNat n =>
        by_cases hn0 : n = 0
        · subst hn0
          rw [show stringify (Json.num (Int.ofNat 0)) ++ rest = '0' :: rest from rfl]
          simp only [parseValue, reduceIte]
          rw [parseNumTail_stop rest hrest]
          rfl
        · cases hnd : natToDigits n with
          | nil => exact absurd hnd (natToDigits_spec n).1
          | cons d ds =>
            have hd : isDigitChar d = true := (natToDigits_spec n).2 d (by rw [hnd]; simp)
            have hne := isDigitChar_ne d hd
            have hne0 : d ≠ '0' := natToDigits_head_ne_zero n (by omega) d ds hnd
            have hcons : stringify (Json.num (Int.ofNat n)) ++ rest = d :: (ds ++ rest) := by
              simp [stringify, intToDigits, hnd]
            rw [hcons]
            simp only [parseValue, hne.1, hne.2.1, hne.2.2.1, hne.2.2.2.1, hne.2.2.2.2.1,
              hne0, if_false, hd, if_true]
            rw [parseDigits_head d hd, show d :: (ds ++ rest) = (d :: ds) ++ rest from rfl,
              ← hnd, parseDigits_full n rest hrest, parseNumTail_stop rest hrest]
            rfl
      | negSucc n =>
        cases hnd : natToDigits (n + 1) with
        | nil => exact absurd hnd (natToDigits_spec (n + 1)).1
        | cons d ds =>
          have hd : isDigitChar d = true := (natToDigits_spec (n + 1)).2 d (by rw [hnd]; simp)
          have hne0 : d ≠ '0' := natToDigits_head_ne_zero (n + 1) (by omega) d ds hnd
          have hcons : stringify (Json.num (Int.negSucc n)) ++ rest
              = '-' :: (d :: (ds ++ rest)) := by
            simp [stringify, intToDigits, hnd]
          rw [hcons]
          simp only [parseValue, reduceIte, hne0, if_false, hd, if_true]
          rw [parseDigits_head d hd, show d :: (ds ++ rest) = (d :: ds) ++ rest from rfl,
            ← hnd, parseDigits_full (n + 1) rest hrest, parseNumTail_stop rest hrest]
          simp [Int.negSucc_eq]
    | str s =>
      have hcons : stringify (Json.str s) ++ rest = '"' :: (escapeList s ++ ('"' :: rest)) := by
        simp [stringify]
      rw [hcons]
      simp only [parseValue, reduceIte]
      rw [parseStringBody_escape s rest]
      simp
    | arr xs =>
      cases xs with
      | nil =>
        rw [show stringify (Json.arr []) ++ rest = '[' :: (']' :: rest) from rfl]
        simp only [parseValue, reduceIte, show isDigitChar '[' = false from by decide,
          Bool.false_eq_true, if_false]
        rw [skipWs_rbrack rest]
        simp
      | cons x t =>
        obtain ⟨r, hr⟩ := stringifyItems_cons x t
        obtain ⟨c0, t0, hx, hw0, hc2, hc1⟩ := stringify_head x
        have hsplit : stringifyItems (x :: t) ++ (']' :: rest)
            = c0 :: (t0 ++ (r ++ (']' :: rest))) := by
          rw [hr, hx]; simp
        have hsk : skipWs (stringifyItems (x :: t) ++ (']' :: rest))
            = stringifyItems (x :: t) ++ (']' :: rest) := by
          rw [hsplit]
          exact skipWs_cons c0 _ hw0
        have hcons : stringify (Json.arr (x :: t)) ++ rest
            = '[' :: (stringifyItems (x :: t) ++ (']' :: rest)) := by
          simp [stringify]
        rw [hcons]
        simp only [parseValue, reduceIte, show isDigitChar '[' = false from by decide,
          Bool.false_eq_true, if_false]
        rw [hsk, hsplit]
        simp only [hc1, if_false, reduceIte]
        rw [← hsplit, parseElems_stringify x t f rest (by rw [fuelV] at hfuel; omega) hrest]
        simp
    | obj kvs =>
      cases kvs with
      | nil =>
        rw [show stringify (Json.obj []) ++ rest = '\x7b' :: ('\x7d' :: rest) from rfl]
        simp only [parseValue, reduceIte, show isDigitChar '\x7b' = false from by decide,
          Bool.false_eq_true, if_false]
        rw [skipWs_rbrace rest]
        simp
      | cons kv t =>
        obtain ⟨k, v⟩ := kv
        obtain ⟨r, hr⟩ := stringifyMembers_cons k v t
        have hsplit : stringifyMembers ((k, v) :: t) ++ ('\x7d' :: rest)
            = '"' :: (r ++ ('\x7d' :: rest)) := by
          rw [hr]; simp
        have hsk : skipWs (stringifyMembers ((k, v) :: t) ++ ('\x7d' :: rest))
            = stringifyMembers ((k, v) :: t) ++ ('\x7d' :: rest) := by
          rw [hsplit]
          exact skipWs_cons '"' _ (by decide)
        have hcons : stringify (Json.obj ((k, v) :: t)) ++ rest
            = '\x7b' :: (stringifyMembers ((k, v) :: t) ++ ('\x7d' :: rest)) := by
          simp [stringify]
        rw [hcons]
        simp only [parseValue, reduceIte, show isDigitChar '\x7b' = false from by decide,
          Bool.false_eq_true, if_false]
        rw [hsk, hsplit]
        simp only [show ('"' : Char) = '\x7d' ↔ False from by simp, if_false, reduceIte]
        rw [← hsplit, parseMembers_stringify k v t f rest (by rw [fuelV] at hfuel; omega) hrest]
        simp
termination_by j _ _ => sizeOf j

theorem parseElems_stringify :
    ∀ (x : Json) (t : List Json) (fuel : Nat) (rest : List Char),
      fuelE (x :: t) ≤ fuel → restOk rest = true →
      parseElems fuel (stringifyItems (x :: t) ++ (']' :: rest)) = some (some (x :: t), rest)
  | x, t, fuel, rest => fun hfuel hrest => by
    obtain ⟨f, rfl⟩ : ∃ f, fuel = f + 1 :=
      ⟨fuel - 1, by rw [fuelE] at hfuel; omega⟩
    rw [fuelE] at hfuel
    cases t with
    | nil =>
      rw [show stringifyItems [x] = stringify x from rfl]
      simp only [parseElems]
      rw [parseValue_stringify x f (']' :: rest) (by omega) (by rfl)]
      simp [skipWs_rbrack]
    | cons y t2 =>
      obtain ⟨r2, hr2⟩ := stringifyItems_cons y t2
      obtain ⟨c1, t1, hy, hw1, hy2, hy1⟩ := stringify_head y
      have hsplit : stringifyItems (x :: y :: t2) ++ (']' :: rest)
          = stringify x ++ (',' :: (stringifyItems (y :: t2) ++ (']' :: rest))) := by
        rw [stringifyItems]; simp
      have hsplit2 : stringifyItems (y :: t2) ++ (']' :: rest)
          = c1 :: (t1 ++ (r2 ++ (']' :: rest))) := by
        rw [hr2, hy]; simp
      have hsk : skipWs (stringifyItems (y :: t2) ++ (']' :: rest))
          = stringifyItems (y :: t2) ++ (']' :: rest) := by
        rw [hsplit2]
        exact skipWs_cons c1 _ hw1
      rw [hsplit]
      simp only [parseElems]
      rw [parseValue_stringify x f (',' :: (stringifyItems (y :: t2) ++ (']' :: rest)))
        (by omega) (by rfl)]
      simp [skipWs_comma, hsk, parseElems_stringify y t2 f rest (by omega) hrest, joinVal]
termination_by x t _ _ => 1 + sizeOf x + sizeOf t

theorem parseMembers_stringify :
    ∀ (k : List Char) (v : Json) (t : List (List Char × Json)) (fuel : Nat)
      (rest : List Char),
      fuelM ((k, v) :: t) ≤ fuel → restOk rest = true →
      parseMembers fuel (stringifyMembers ((k, v) :: t) ++ ('\x7d' :: rest))
        = some (some ((k, v) :: t), rest)
  | k, v, t, fuel, rest => fun hfuel hrest => by
    obtain ⟨f, rfl⟩ : ∃ f, fuel = f + 1 :=
      ⟨fuel - 1, by rw [fuelM] at hfuel; omega⟩
    rw [fuelM] at hfuel
    simp only at hfuel
    obtain ⟨cv, tv, hv, hwv, hv2, hv1⟩ := stringify_head v
    cases t with
    | nil =>
      have hsplit : stringifyMembers [(k, v)] ++ ('\x7d' :: rest)
          = '"' :: (escapeList k ++ ('"' :: (':' :: (stringify v ++ ('\x7d' :: rest))))) := by
        rw [stringifyMembers]; simp
      have hskv : skipWs (stringify v ++ ('\x7d' :: rest))
          = stringify v ++ ('\x7d' :: rest) := by
        rw [hv, List.cons_append]
        exact skipWs_cons cv _ hwv
      rw [hsplit]
      simp only [parseMembers]
      rw [parseStringBody_escape k (':' :: (stringify v ++ ('\x7d' :: rest)))]
      simp [skipWs_colon, hskv, skipWs_rbrace,
        parseValue_stringify v f ('\x7d' :: rest) (by omega) (by rfl)]
    | cons m t2 =>
      obtain ⟨k2, v2⟩ := m
      obtain ⟨r2, hr2⟩ := stringifyMembers_cons k2 v2 t2
      have hsplit : stringifyMembers ((k, v) :: (k2, v2) :: t2) ++ ('\x7d' :: rest)
          = '"' :: (escapeList k ++ ('"' :: (':' :: (stringify v ++
              (',' :: (stringifyMembers ((k2, v2) :: t2) ++ ('\x7d' :: rest))))))) := by
        rw [stringifyMembers]; simp
      have hskv : skipWs (stringify v ++
          (',' :: (stringifyMembers ((k2, v2) :: t2) ++ ('\x7d' :: rest))))
          = stringify v ++ (',' :: (stringifyMembers ((k2, v2) :: t2) ++ ('\x7d' :: rest))) := by
        rw [hv, List.cons_append]
        exact skipWs_cons cv _ hwv
      have hsk2 : skipWs (stringifyMembers ((k2, v2) :: t2) ++ ('\x7d' :: rest))
          = stringifyMembers ((k2, v2) :: t2) ++ ('\x7d' :: rest) := by
        rw [hr2, List.cons_append]
        exact skipWs_cons '"' _ (by decide)
      rw [hsplit]
      simp only [parseMembers]
      rw [parseStringBody_escape k
        (':' :: (stringify v ++
          (',' :: (stringifyMembers ((k2, v2) :: t2) ++ ('\x7d' :: rest)))))]
      simp [skipWs_colon, hskv, skipWs_comma, hsk2, joinVal,
        parseValue_stringify v f
          (',' :: (stringifyMembers ((k2, v2) :: t2) ++ ('\x7d' :: rest))) (by omega) (by rfl),
        parseMembers_stringify k2 v2 t2 f rest (by rw [fuelM] at hfuel ⊢; omega) hrest]
termination_by _ v t _ _ => 2 + sizeOf v + sizeOf t

end

theorem stringify_length_pos (j : Json) : 0 < (stringify j).length := by
  obtain ⟨c, t, h, _, _, _⟩ := stringify_head j
  simp [h]

mutual

theorem fuelV_le_length : ∀ j : Json, fuelV j ≤ (stringify j).length
  | .null => by decide
  | .bool b => by cases b <;> decide
  | .num i => by
      have h := stringify_length_pos (Json.num i)
      rw [fuelV]
      omega
  | .str s => by
      have h := stringify_length_pos (Json.str s)
      rw [fuelV]
      omega
  | .arr xs => by
      have h := fuelE_le_length xs
      rw [fuelV, stringify]
      simp only [List.length_cons, List.length_append, List.length_singleton]
      omega
  | .obj kvs => by
      have h := fuelM_le_length kvs
      rw [fuelV, stringify]
      simp only [List.length_cons, List.length_append, List.length_singleton]
      omega

theorem fuelE_le_length : ∀ xs : List Json, fuelE xs ≤ (stringifyItems xs).length + 1
  | [] => by simp [fuelE, stringifyItems]
  | [x] => by
      have h1 := fuelV_le_length x
      have h2 := stringify_length_pos x
      rw [fuelE, fuelE, show stringifyItems [x] = stringify x from rfl]
      omega
  | x :: y :: t => by
      have h1 := fuelV_le_length x
      have h2 := fuelE_le_length (y :: t)
      rw [fuelE, stringifyItems]
      simp only [List.length_append, List.length_cons]
      omega

theorem fuelM_le_length :
    ∀ kvs : List (List Char × Json), fuelM kvs ≤ (stringifyMembers kvs).length + 1
  | [] => by simp [fuelM, stringifyMembers]
  | [(_, v)] => by
      have h1 := fuelV_le_length v
      rw [fuelM, fuelM, stringifyMembers]
      simp only [List.length_cons, List.length_append]
      omega
  | (k, v) :: m :: t => by
      have h1 := fuelV_le_length v
      have h2 := fuelM_le_length (m :: t)
      rw [fuelM, stringifyMembers]
      simp only [List.length_cons, List.length_append]
      omega

end

/-- Serializing any JSON value and parsing it back returns the same value:
`JSON.parse(JSON.stringify(v))` is the identity on the modelled value space. -/
theorem jsonParse_stringify (j : Json) : jsonParse (stringify j) = some j := by
  have hf : fuelV j ≤ (stringify j).length + 1 := by
    have := fuelV_le_length j
    omega
  have h := parseValue_stringify j ((stringify j).length + 1) [] hf rfl
  rw [List.append_nil] at h
  obtain ⟨c, t, hct, hw, _, _⟩ := stringify_head j
  have hsk : skipWs (stringify j) = stringify j := by
    rw [hct]
    exact skipWs_cons c t hw
  unfold jsonParse
  rw [hsk, h]
  rfl

/-- UTF-8 bytes of one scalar value.  Together with `utf8Encode` this is the
byte sequence that `unescape(encodeURIComponent(str))` presents to `btoa` in
`utf8ToB64` (line 28 of the source). -/
def utf8EncodeChar (c : Char) : List Nat :=
  let n := c.toNat
  if n < 128 then [n]
  else if n < 2048 then [192 + n / 64, 128 + n % 64]
  else if n < 65536 then [224 + n / 4096, 128 + n / 64 % 64, 128 + n % 64]
  else [240 + n / 262144, 128 + n / 4096 % 64, 128 + n / 64 % 64, 128 + n % 64]

/-- UTF-8 encoding of a string. -/
def utf8Encode : List Char → List Nat
  | [] => []
  | c :: cs => utf8EncodeChar c ++ utf8Encode cs

/-- Continuation-byte test. -/
def isCont (b : Nat) : Bool := 128 ≤ b && b < 192

/-- Strict UTF-8 decoding, as performed by `decodeURIComponent(escape(...))`
in `b64ToUtf8` (line 29): malformed, overlong and surrogate sequences raise
`URIError`, embedded as `none`.  The fuel argument (one unit per decoded
character) makes the recursion structural; `utf8Decode` supplies enough. -/
def utf8DecodeF : Nat → List Nat → Option (List Char)
  | 0, _ => none
  | _ + 1, [] => some []
  | f + 1, b :: bs =>
    if b < 128 then (utf8DecodeF f bs).map (fun s => Char.ofNat b :: s)
    else if b < 192 then none
    else if b < 224 then
      match bs with
      | b1 :: bs2 =>
        if isCont b1 then
          let n := (b - 192) * 64 + (b1 - 128)
          if 128 ≤ n then (utf8DecodeF f bs2).map (fun s => Char.ofNat n :: s) else none
        else none
      | [] => none
    else if b < 240 then
      match bs with
      | b1 :: b2 :: bs2 =>
        if isCont b1 && isCont b2 then
          let n := (b - 224) * 4096 + (b1 - 128) * 64 + (b2 - 128)
          if 2048 ≤ n ∧ ¬(55296 ≤ n ∧ n ≤ 57343) then
            (utf8DecodeF f bs2).map (fun s => Char.ofNat n :: s)
          else none
        else none
      | _ => none
    else if b < 248 then
      match bs with
      | b1 :: b2 :: b3 :: bs2 =>
        if isCont b1 && isCont b2 && isCont b3 then
          let n := (b - 240) * 262144 + (b1 - 128) * 4096 + (b2 - 128) * 64 + (b3 - 128)
          if 65536 ≤ n ∧ n < 1114112 then
            (utf8DecodeF f bs2).map (fun s => Char.ofNat n :: s)
          else none
        else none
      | _ => none
    else none

/-- Strict UTF-8 decoding of a whole byte list. -/
def utf8Decode (bs : List Nat) : Option (List Char) := utf8DecodeF (bs.length + 1) bs

theorem char_toNat_valid (c : Char) :
    c.toNat < 1114112 ∧ ¬(55296 ≤ c.toNat ∧ c.toNat ≤ 57343) := by
  have h := c.valid
  unfold UInt32.isValidChar Nat.isValidChar at h
  have he : c.toNat = c.val.toNat := rfl
  rcases h with h | h <;> (rw [he]; omega)

theorem utf8DecodeF_encode :
    ∀ (s : List Char) (f : Nat), s.length + 1 ≤ f →
      utf8DecodeF f (utf8Encode s) = some s := by
  intro s
  induction s with
  | nil =>
    intro f hf
    obtain ⟨g, rfl⟩ : ∃ g, f = g + 1 := ⟨f - 1, by omega⟩
    rfl
  | cons c cs ih =>
    intro f hf
    obtain ⟨g, rfl⟩ : ∃ g, f = g + 1 := ⟨f - 1, by omega⟩
    have hrec := ih g (by simp at hf; omega)
    have hv := char_toNat_valid c
    rw [utf8Encode]
    by_cases h1 : c.toNat < 128
    · rw [show utf8EncodeChar c = [c.toNat] from by rw [utf8EncodeChar]; simp [h1]]
      rw [List.cons_append, List.nil_append, utf8DecodeF.eq_def]
      simp [h1, hrec, Char.ofNat_toNat]
    · by_cases h2 : c.toNat < 2048
      · rw [show utf8EncodeChar c = [192 + c.toNat / 64, 128 + c.toNat % 64] from by
          rw [utf8EncodeChar]; simp [h1, h2]]
        rw [List.cons_append, List.cons_append, List.nil_append, utf8DecodeF.eq_def]
        have hb1 : ¬(192 + c.toNat / 64 < 128) := by omega
        have hb2 : ¬(192 + c.toNat / 64 < 192) := by omega
        have hb3 : 192 + c.toNat / 64 < 224 := by omega
        have hcont : isCont (128 + c.toNat % 64) = true := by simp [isCont]; omega
        simp only [hb1, hb2, hb3, hcont, if_false, if_true, reduceIte]
        have harith : (192 + c.toNat / 64 - 192) * 64 + (128 + c.toNat % 64 - 128)
            = c.toNat := by omega
        rw [harith]
        simp [hrec, Char.ofNat_toNat, (show 128 ≤ c.toNat from by omega)]
      · by_cases h3 : c.toNat < 65536
        · rw [show utf8EncodeChar c
              = [224 + c.toNat / 4096, 128 + c.toNat / 64 % 64, 128 + c.toNat % 64] from by
            rw [utf8EncodeChar]; simp [h1, h2, h3]]
          rw [List.cons_append, List.cons_append, List.cons_append, List.nil_append,
            utf8DecodeF.eq_def]
          have hb1 : ¬(224 + c.toNat / 4096 < 128) := by omega
          have hb2 : ¬(224 + c.toNat / 4096 < 192) := by omega
          have hb3 : ¬(224 + c.toNat / 4096 < 224) := by omega
          have hb4 : 224 + c.toNat / 4096 < 240 := by omega
          have hcont1 : isCont (128 + c.toNat / 64 % 64) = true := by simp [isCont]; omega
          have hcont2 : isCont (128 + c.toNat % 64) = true := by simp [isCont]; omega
          simp only [hb1, hb2, hb3, hb4, hcont1, hcont2, if_false, if_true, reduceIte,
            Bool.and_self]
          have harith : (224 + c.toNat / 4096 - 224) * 4096
              + (128 + c.toNat / 64 % 64 - 128) * 64 + (128 + c.toNat % 64 - 128)
              = c.toNat := by omega
          rw [harith]
          have hcond : 2048 ≤ c.toNat ∧ ¬(55296 ≤ c.toNat ∧ c.toNat ≤ 57343) :=
            ⟨by omega, hv.2⟩
          simp [hcond, hrec, Char.ofNat_toNat]
        · rw [show utf8EncodeChar c
              = [240 + c.toNat / 262144, 128 + c.toNat / 4096 % 64,
                 128 + c.toNat / 64 % 64, 128 + c.toNat % 64] from by
            rw [utf8EncodeChar]; simp [h1, h2, h3]]
          rw [List.cons_append, List.cons_append, List.cons_append, List.cons_append,
            List.nil_append, utf8DecodeF.eq_def]
          have hb1 : ¬(240 + c.toNat / 262144 < 128) := by omega
          have hb2 : ¬(240 + c.toNat / 262144 < 192) := by omega
          have hb3 : ¬(240 + c.toNat / 262144 < 224) := by omega
          have hb4 : ¬(240 + c.toNat / 262144 < 240) := by omega
          have hb5 : 240 + c.toNat / 262144 < 248 := by
            have := hv.1
            omega
          have hcont1 : isCont (128 + c.toNat / 4096 % 64) = true := by simp [isCont]; omega
          have hcont2 : isCont (128 + c.toNat / 64 % 64) = true := by simp [isCont]; omega
          have hcont3 : isCont (128 + c.toNat % 64) = true := by simp [isCont]; omega
          simp only [hb1, hb2, hb3, hb4, hb5, hcont1, hcont2, hcont3, if_false, if_true,
            reduceIte, Bool.and_self]
          have harith : (240 + c.toNat / 262144 - 240) * 262144
              + (128 + c.toNat / 4096 % 64 - 128) * 4096
              + (128 + c.toNat / 64 % 64 - 128) * 64 + (128 + c.toNat % 64 - 128)
              = c.toNat := by omega
          rw [harith]
          have hcond : 65536 ≤ c.toNat ∧ c.toNat < 1114112 := ⟨by omega, hv.1⟩
          simp [hcond, hrec, Char.ofNat_toNat]

theorem utf8Encode_length (s : List Char) : s.length ≤ (utf8Encode s).length := by
  induction s with
  | nil => simp [utf8Encode]
  | cons c cs ih =>
    rw [utf8Encode, List.length_append]
    have h : 1 ≤ (utf8EncodeChar c).length := by
      rw [utf8EncodeChar]
      by_cases h1 : c.toNat < 128
      · simp [h1]
      · by_cases h2 : c.toNat < 2048
        · simp [h1, h2]
        · by_cases h3 : c.toNat < 65536
          · simp [h1, h2, h3]
          · simp [h1, h2, h3]
    simp only [List.length_cons]
    omega

/-- Round trip of the UTF-8 layer. -/
theorem utf8Decode_encode (s : List Char) : utf8Decode (utf8Encode s) = some s := by
  rw [utf8Decode]
  exact utf8DecodeF_encode s _ (by have := utf8Encode_length s; omega)

theorem utf8Encode_lt (s : List Char) : ∀ b ∈ utf8Encode s, b < 256 := by
  induction s with
  | nil => simp [utf8Encode]
  | cons c cs ih =>
    intro b hb
    rw [utf8Encode] at hb
    rcases List.mem_append.mp hb with hb | hb
    · have hv := (char_toNat_valid c).1
      rw [utf8EncodeChar] at hb
      by_cases h1 : c.toNat < 128
      · simp [h1] at hb; omega
      · by_cases h2 : c.toNat < 2048
        · simp [h1, h2] at hb; rcases hb with hb | hb <;> omega
        · by_cases h3 : c.toNat < 65536
          · simp [h1, h2, h3] at hb; rcases hb with hb | hb | hb <;> omega
          · simp [h1, h2, h3] at hb; rcases hb with hb | hb | hb | hb <;> omega
    · exact ih b hb

/-- The base64 alphabet in index order. -/
def b64Alphabet : List Char :=
  "ABCDEFGHIJKLMNOPQRSTUVWXYZabcdefghijklmnopqrstuvwxyz0123456789+/".toList

/-- Character for a six-bit value. -/
def b64Char (n : Nat) : Char := b64Alphabet.getD n 'A'

/-- Index of `c` in the alphabet; `none` when `c` is not a base64 character
(`atob` raises `InvalidCharacterError` there, embedded as `none`). -/
def sextetVal (c : Char) : Option Nat := b64Alphabet.findIdx? (fun x => x == c)

/-- Base64 encoding with padding, as produced by `btoa`: three input bytes
per four output characters, `=`-padded final group. -/
def base64Encode : List Nat → List Char
  | [] => []
  | [b0] => [b64Char (b0 / 4), b64Char (b0 % 4 * 16), '=', '=']
  | [b0, b1] => [b64Char (b0 / 4), b64Char (b0 % 4 * 16 + b1 / 16), b64Char (b1 % 16 * 4), '=']
  | b0 :: b1 :: b2 :: rest =>
      b64Char (b0 / 4) :: b64Char (b0 % 4 * 16 + b1 / 16) ::
        b64Char (b1 % 16 * 4 + b2 / 64) :: b64Char (b2 % 64) :: base64Encode rest

/-- Group-wise base64 decoding of whitespace-free text: complete
four-character groups, optionally `=`-padded at the end, with unpadded two-
or three-character tails also accepted; any character outside the alphabet
(or misplaced padding) is an error, embedded as `none`. -/
def base64DecodeGroups : List Char → Option (List Nat)
  | [] => some []
  | [_] => none
  | [c0, c1] =>
    match sextetVal c0, sextetVal c1 with
    | some s0, some s1 => some [s0 * 4 + s1 / 16]
    | _, _ => none
  | [c0, c1, c2] =>
    match sextetVal c0, sextetVal c1, sextetVal c2 with
    | some s0, some s1, some s2 => some [s0 * 4 + s1 / 16, s1 % 16 * 16 + s2 / 4]
    | _, _, _ => none
  | c0 :: c1 :: c2 :: c3 :: rest =>
    if c2 = '=' then
      if c3 = '=' ∧ rest = [] then
        match sextetVal c0, sextetVal c1 with
        | some s0, some s1 => some [s0 * 4 + s1 / 16]
        | _, _ => none
      else none
    else if c3 = '=' then
      if rest = [] then
        match sextetVal c0, sextetVal c1, sextetVal c2 with
        | some s0, some s1, some s2 => some [s0 * 4 + s1 / 16, s1 % 16 * 16 + s2 / 4]
        | _, _, _ => none
      else none
    else
      match sextetVal c0, sextetVal c1, sextetVal c2, sextetVal c3 with
      | some s0, some s1, some s2, some s3 =>
          (base64DecodeGroups rest).map
            (fun bs => (s0 * 4 + s1 / 16) :: ((s1 % 16 * 16 + s2 / 4) :: ((s2 % 4 * 64 + s3) :: bs)))
      | _, _, _, _ => none

/-- The ASCII whitespace that forgiving base64 ignores: tab, line feed, form
feed, carriage return and space.  `atob` removes these from its input before
decoding (WHATWG forgiving-base64). -/
def isB64Ws (c : Char) : Bool :=
  c.toNat == 9 || c.toNat == 10 || c.toNat == 12 || c.toNat == 13 || c.toNat == 32

/-- Base64 decoding as performed by `atob`: strip ASCII whitespace, then
decode the four-character groups; anything else outside the alphabet (or
misplaced padding) is an `InvalidCharacterError`, embedded as `none`. -/
def base64Decode (s : List Char) : Option (List Nat) :=
  base64DecodeGroups (s.filter (fun c => !isB64Ws c))

theorem sextetVal_b64Char (n : Nat) (h : n < 64) : sextetVal (b64Char n) = some n := by
  interval_cases n <;> rfl

theorem b64Char_ne_pad (n : Nat) (h : n < 64) : b64Char n ≠ '=' := by
  intro heq
  have h1 := sextetVal_b64Char n h
  rw [heq, show sextetVal '=' = none from by decide] at h1
  exact Option.noConfusion h1

theorem base64DecodeGroups_encode :
    ∀ bs : List Nat, (∀ b ∈ bs, b < 256) → base64DecodeGroups (base64Encode bs) = some bs
  | [] => fun _ => rfl
  | [b0] => fun h => by
    have hb0 : b0 < 256 := h b0 (by simp)
    rw [base64Encode, base64DecodeGroups.eq_def]
    simp only [reduceIte]
    rw [sextetVal_b64Char (b0 / 4) (by omega), sextetVal_b64Char (b0 % 4 * 16) (by omega)]
    simp
    omega
  | [b0, b1] => fun h => by
    have hb0 : b0 < 256 := h b0 (by simp)
    have hb1 : b1 < 256 := h b1 (by simp)
    rw [base64Encode, base64DecodeGroups.eq_def]
    have hne : b64Char (b1 % 16 * 4) ≠ '=' := b64Char_ne_pad _ (by omega)
    simp only [hne, reduceIte, if_false]
    rw [sextetVal_b64Char (b0 / 4) (by omega),
      sextetVal_b64Char (b0 % 4 * 16 + b1 / 16) (by omega),
      sextetVal_b64Char (b1 % 16 * 4) (by omega)]
    simp
    omega
  | b0 :: b1 :: b2 :: rest => fun h => by
    have hb0 : b0 < 256 := h b0 (by simp)
    have hb1 : b1 < 256 := h b1 (by simp)
    have hb2 : b2 < 256 := h b2 (by simp)
    have hrec := base64DecodeGroups_encode rest (fun b hb => h b (by simp [hb]))
    rw [base64Encode, base64DecodeGroups.eq_def]
    have hne2 : b64Char (b1 % 16 * 4 + b2 / 64) ≠ '=' := b64Char_ne_pad _ (by omega)
    have hne3 : b64Char (b2 % 64) ≠ '=' := b64Char_ne_pad _ (by omega)
    simp only [hne2, hne3, reduceIte, if_false]
    rw [sextetVal_b64Char (b0 / 4) (by omega),
      sextetVal_b64Char (b0 % 4 * 16 + b1 / 16) (by omega),
      sextetVal_b64Char (b1 % 16 * 4 + b2 / 64) (by omega),
      sextetVal_b64Char (b2 % 64) (by omega)]
    simp [hrec]
    omega

theorem b64Char_not_ws (n : Nat) (h : n < 64) : isB64Ws (b64Char n) = false := by
  interval_cases n <;> rfl

theorem base64Encode_filter :
    ∀ bs : List Nat, (∀ b ∈ bs, b < 256) →
      (base64Encode bs).filter (fun c => !isB64Ws c) = base64Encode bs
  | [] => fun _ => rfl
  | [b0] => fun h => by
    have hb0 : b0 < 256 := h b0 (by simp)
    rw [base64Encode]
    simp [List.filter_cons, b64Char_not_ws (b0 / 4) (by omega),
      b64Char_not_ws (b0 % 4 * 16) (by omega),
      show isB64Ws '=' = false from by decide]
  | [b0, b1] => fun h => by
    have hb0 : b0 < 256 := h b0 (by simp)
    have hb1 : b1 < 256 := h b1 (by simp)
    rw [base64Encode]
    simp [List.filter_cons, b64Char_not_ws (b0 / 4) (by omega),
      b64Char_not_ws (b0 % 4 * 16 + b1 / 16) (by omega),
      b64Char_not_ws (b1 % 16 * 4) (by omega),
      show isB64Ws '=' = false from by decide]
  | b0 :: b1 :: b2 :: rest => fun h => by
    have hb0 : b0 < 256 := h b0 (by simp)
    have hb1 : b1 < 256 := h b1 (by simp)
    have hb2 : b2 < 256 := h b2 (by simp)
    have hrec := base64Encode_filter rest (fun b hb => h b (by simp [hb]))
    rw [base64Encode]
    simp [List.filter_cons, b64Char_not_ws (b0 / 4) (by omega),
      b64Char_not_ws (b0 % 4 * 16 + b1 / 16) (by omega),
      b64Char_not_ws (b1 % 16 * 4 + b2 / 64) (by omega),
      b64Char_not_ws (b2 % 64) (by omega), hrec]

/-- Round trip of the base64 layer, through the whitespace-stripping
decoder. -/
theorem base64Decode_encode (bs : List Nat) (h : ∀ b ∈ bs, b < 256) :
    base64Decode (base64Encode bs) = some bs := by
  rw [base64Decode, base64Encode_filter bs h]
  exact base64DecodeGroups_encode bs h

/-- Embeds `utf8ToB64` (source line 28):
`btoa(unescape(encodeURIComponent(str)))`, the idiom producing the base64
encoding of the UTF-8 bytes of `str`. -/
def utf8ToB64 (s : List Char) : List Char := base64Encode (utf8Encode s)

/-- Embeds `b64ToUtf8` (source line 29):
`decodeURIComponent(escape(atob(b64)))`; an `atob` failure or invalid UTF-8
raises, embedded as `none`. -/
def b64ToUtf8 (s : List Char) : Option (List Char) := (base64Decode s).bind utf8Decode

/-- Embeds `encodePayload` (source line 41):
`utf8ToB64(JSON.stringify(obj))`.  The surrounding `try`/`catch` (returning
`null`) is unreachable here: `JSON.stringify` throws only on values outside
the modelled space (circular structures, `BigInt`), so the embedding is
total. -/
def encodePayload (j : Json) : List Char := utf8ToB64 (stringify j)

/-- Embeds `decodePayload` (source line 42):
`JSON.parse(b64ToUtf8(str))` with the `try`/`catch` returning `null` on any
failure, embedded as `none`. -/
def decodePayload (s : List Char) : Option Json := (b64ToUtf8 s).bind jsonParse

theorem b64ToUtf8_utf8ToB64 (s : List Char) : b64ToUtf8 (utf8ToB64 s) = some s := by
  rw [b64ToUtf8, utf8ToB64, base64Decode_encode (utf8Encode s) (utf8Encode_lt s)]
  simp [utf8Decode_encode]

/-- Decoding inverts encoding on every JSON value. -/
theorem decodePayload_encodePayload (j : Json) : decodePayload (encodePayload j) = some j := by
  rw [decodePayload, encodePayload, b64ToUtf8_utf8ToB64]
  simp [jsonParse_stringify]

example : encodePayload (Json.str "hi".toList) = "ImhpIg==".toList := by decide
example : decodePayload "ImhpIg==".toList = some (Json.str "hi".toList) := by decide
example : decodePayload "Imhp\nIg==".toList = some (Json.str "hi".toList) := by decide
example : decodePayload " ImhpIg==\t".toList = some (Json.str "hi".toList) := by decide
example : decodePayload "not-base64".toList = none := by decide

/-- JavaScript truthiness of a JSON value (`!v`, `v && w`). -/
def truthy : Json → Bool
  | .null => false
  | .bool b => b
  | .num n => n ≠ 0
  | .str s => s ≠ []
  | .arr _ => true
  | .obj _ => true

/-- Truthiness of a possibly-`undefined` value (property access on a missing
key yields `undefined`, embedded as `none`). -/
def truthyOpt : Option Json → Bool
  | none => false
  | some v => truthy v

/-- JavaScript property access `j[k]` on a parsed JSON value: `undefined`
(`none`) unless `j` is an object with key `k`; with duplicate keys
`JSON.parse` keeps the last occurrence. -/
def getProp (j : Json) (k : List Char) : Option Json :=
  match j with
  | .obj kvs => kvs.reverse.lookup k
  | _ => none

mutual

/-- JavaScript string coercion `String(v)`, used by `'msg:' + msg.type`
(source line 159): strings pass through, numbers and primitives print, an
array joins its elements with commas, a plain object prints as
`[object Object]`. -/
def jsToString : Json → List Char
  | .null => "null".toList
  | .bool b => boolChars b
  | .num i => intToDigits i
  | .str s => s
  | .arr xs => jsJoin xs
  | .obj _ => "[object Object]".toList

/-- `Array.prototype.join(',')`: `null` elements print as the empty
string. -/
def jsJoin : List Json → List Char
  | [] => []
  | [x] => if x = Json.null then [] else jsToString x
  | x :: y :: t =>
      (if x = Json.null then [] else jsToString x) ++ (',' :: jsJoin (y :: t))

end

/-- Notifications raised through the event registry (`on`/`_emit`,
lines 53-54).  `_emit` wraps every subscriber call in `try`/`catch`, so a
faulty handler cannot affect delivery to the others; dispatch is therefore
modelled as the list of notifications raised, in order. -/
inductive Ev where
  | lobbyCreated (shareLink : List Char)
  | answerCreated (answerLink : List Char)
  | opened
  | closed
  | message (msg : Json)
  | typed (name : List Char) (payload : Option Json)
deriving DecidableEq

/-- Embeds the `dc.onmessage` handler (lines 154-161): parse the frame text;
on failure log and drop (no event at all); on success emit the generic
`message` event with the parsed envelope, then, when the envelope and its
`type` field are truthy, the type-scoped `'msg:' + type` event carrying
`msg.payload`. -/
def onMessage (data : List Char) : List Ev :=
  match jsonParse data with
  | none => []
  | some msg =>
    Ev.message msg ::
      (if truthy msg && truthyOpt (getProp msg "type".toList) then
        [Ev.typed ("msg:".toList ++ jsToString ((getProp msg "type".toList).getD Json.null))
          (getProp msg "payload".toList)]
      else [])

/-- Sequential processing of inbound frames: the channel is ordered and
reliable, and the single-threaded handler finishes one frame before the
next. -/
def dispatchList : List (List Char) → List Ev
  | [] => []
  | d :: rest => onMessage d ++ dispatchList rest

/-- The generic `message` notifications among a list of events, in order. -/
def messageEvents (evs : List Ev) : List Json :=
  evs.filterMap (fun e => match e with | Ev.message m => some m | _ => none)

/-- `RTCDataChannel.readyState` values. -/
inductive DCState where
  | connecting
  | openState
  | closing
  | closedState
deriving DecidableEq

/-- The data channel as far as the module observes it. -/
structure DataChannel where
  readyState : DCState
deriving DecidableEq

/-- The mutable fields of the `MP` object (lines 45-51) that make up the
session state: `events` holds subscriber closures and is not part of it. -/
structure MPState where
  pc : Option Unit
  dc : Option DataChannel
  isHost : Bool
  connected : Bool
  gatheredCandidates : List Json
deriving DecidableEq

/-- The initial `MP` object (lines 45-51). -/
def initialMP : MPState :=
  { pc := none, dc := none, isHost := false, connected := false, gatheredCandidates := [] }

/-- Embeds `close` (lines 174-179): close and clear the channel and the peer
connection, reset the flags and the candidate buffer, and emit `close`.
WebRTC `close()` calls do not throw, so the defensive `try`/`catch` wrappers
pass straight through and the embedding is a total function — no exception
reaches the caller. -/
def MP.close (st : MPState) : MPState × List Ev :=
  ({ st with
      dc := none
      pc := none
      connected := false
      isHost := false
      gatheredCandidates := [] }, [Ev.closed])

/-- State after `n` consecutive `close()` calls. -/
def closeIter : Nat → MPState → MPState
  | 0, st => st
  | n + 1, st => closeIter n (MP.close st).1

/-- The `{ type, payload, t: Date.now() }` object built by `send`
(line 166), serialized in insertion order. -/
def sendEnvelope (ty : List Char) (payload : Json) (now : Nat) : Json :=
  Json.obj [("type".toList, Json.str ty), ("payload".toList, payload),
    ("t".toList, Json.num (now : Int))]

/-- Embeds `send` (lines 164-167).  `sendThrows` is the environment's choice
of whether the underlying `dc.send` throws on this call; the `try`/`catch`
turns a throw into a `false` return, so the embedding is a total function —
no exception reaches the caller.  Returns the reported success flag together
with the frames transmitted. -/
def MP.send (st : MPState) (sendThrows : Bool) (ty : List Char) (payload : Json)
    (now : Nat) : Bool × List (List Char) :=
  match st.dc with
  | none => (false, [])
  | some dc =>
    if dc.readyState ≠ DCState.openState then (false, [])
    else if sendThrows then (false, [])
    else (true, [stringify (sendEnvelope ty payload now)])

/-- Transport-side gathering behavior for one connection attempt:
whether `pc.iceGatheringState` is already `'complete'` when the wait starts,
and when (if ever) the `icegatheringstatechange` event reports complete. -/
structure GatheringEnv where
  initiallyComplete : Bool
  completeEventAt : Option Nat
deriving DecidableEq

/-- Embeds `waitForIceGatheringComplete` (lines 31-38) as the time at which
its promise resolves: immediately when gathering is already complete, at the
state-change event when that fires before the timer, otherwise when the
`setTimeout` fires.  Every path of the executor calls `resolve` and none
calls `reject`, so the embedding is a total function into resolution
times. -/
def waitForIceGatheringComplete (env : GatheringEnv) (timeout : Nat := 3000) : Nat :=
  if env.initiallyComplete then 0
  else
    match env.completeEventAt with
    | some t => min t timeout
    | none => timeout

/-- Transport responses consumed by `createLobby`: the local description
produced by `createOffer`/`setLocalDescription`, and the candidates the
`icecandidate` listener has buffered when the bounded wait resolves. -/
structure HostEnv where
  localDesc : Json
  candidates : List Json
  origin : List Char
  pathname : List Char

/-- Everything `createLobby` produces. -/
structure LobbyOut where
  st : MPState
  payload : Json
  encoded : List Char
  shareLink : List Char
  gatherTimeout : Nat
  events : List Ev

/-- Embeds `createLobby` (lines 57-81): tear down any prior session, take
the host role with a fresh candidate buffer, create the connection and the
`'game'` channel, wait out gathering with a 5000 ms bound (line 73), package
`{ desc, candidates }`, encode it into the share link, and emit
`lobbyCreated`.  `gatherTimeout` records the bound passed to
`waitForIceGatheringComplete`. -/
def createLobby (st : MPState) (env : HostEnv) : LobbyOut :=
  let st0 := if st.pc.isSome then (MP.close st).1 else st
  let st1 := { st0 with
                isHost := true
                gatheredCandidates := env.candidates
                pc := some ()
                dc := some { readyState := DCState.connecting } }
  let payload := Json.obj [("desc".toList, env.localDesc),
                           ("candidates".toList, Json.arr env.candidates)]
  let encoded := encodePayload payload
  let shareLink := env.origin ++ env.pathname ++ "#host=".toList ++ encoded
  { st := st1
    payload := payload
    encoded := encoded
    shareLink := shareLink
    gatherTimeout := 5000
    events := (if st.pc.isSome then [Ev.closed] else []) ++ [Ev.lobbyCreated shareLink] }

/-- Errors thrown by the session operations. -/
inductive MPErr where
  | invalidOffer
  | invalidAnswer
  | noActivePC
deriving DecidableEq

/-- One `pc.addIceCandidate(c)` call; the environment decides which
candidates the transport rejects. -/
def addIceCandidate (fails : Json → Bool) (c : Json) : Except Unit Unit :=
  if fails c then Except.error () else Except.ok ()

/-- Embeds the candidate loops (lines 110-112 and 143-145): each candidate
is attempted with `try { await pc.addIceCandidate(c) } catch (e) { }`; a
rejection is swallowed and the loop continues with the next candidate.
Returns the candidates passed to `addIceCandidate`, in order. -/
def attemptCandidates (fails : Json → Bool) : List Json → List Json
  | [] => []
  | c :: rest =>
    match addIceCandidate fails c with
    | Except.ok _ => c :: attemptCandidates fails rest
    | Except.error _ => c :: attemptCandidates fails rest

/-- Transport responses consumed by `joinFromOfferString`. -/
structure JoinEnv where
  localDesc : Json
  candidates : List Json
  addIceFails : Json → Bool
  origin : List Char
  pathname : List Char

/-- Everything `joinFromOfferString` produces: the final state, the returned
`{ answerLink, encodedAnswer }` or the thrown error, the candidates passed
to `addIceCandidate`, the bound handed to the gathering wait (when
reached), and the notifications raised. -/
structure JoinOut where
  st : MPState
  result : Except MPErr (List Char × List Char)
  attempted : List Json
  gatherTimeout : Option Nat
  events : List Ev

/-- Embeds `joinFromOfferString` (lines 95-125).  The decode and shape check
(lines 96-97) runs before any state is touched: on a bad token the function
throws `Invalid offer payload` with every session field untouched.
Otherwise it tears down any prior session, takes the guest role, applies the
remote description, best-effort-adds the carried candidates when
`Array.isArray` holds, waits out gathering with a 5000 ms bound (line 117),
and returns the encoded answer. -/
def joinFromOfferString (st : MPState) (tok : List Char) (env : JoinEnv) : JoinOut :=
  match decodePayload tok with
  | none =>
    { st := st
      result := Except.error MPErr.invalidOffer
      attempted := []
      gatherTimeout := none
      events := [] }
  | some p =>
    if truthy p && truthyOpt (getProp p "desc".toList) then
      let st0 := if st.pc.isSome then (MP.close st).1 else st
      let st1 := { st0 with
                    isHost := false
                    gatheredCandidates := env.candidates
                    pc := some () }
      let attempted :=
        match getProp p "candidates".toList with
        | some (Json.arr cs) => attemptCandidates env.addIceFails cs
        | _ => []
      let payload := Json.obj [("desc".toList, env.localDesc),
                               ("candidates".toList, Json.arr env.candidates)]
      let encodedAnswer := encodePayload payload
      let answerLink := env.origin ++ env.pathname ++ "#answer=".toList ++ encodedAnswer
      { st := st1
        result := Except.ok (answerLink, encodedAnswer)
        attempted := attempted
        gatherTimeout := some 5000
        events := (if st.pc.isSome then [Ev.closed] else []) ++ [Ev.answerCreated answerLink] }
    else
      { st := st
        result := Except.error MPErr.invalidOffer
        attempted := []
        gatherTimeout := none
        events := [] }

/-- Everything `setAnswerFromString` produces. -/
structure AnswerOut where
  st : MPState
  result : Except MPErr Bool
  attempted : List Json

/-- Embeds `setAnswerFromString` (lines 136-148): `No active PC` without a
prior session, `Invalid answer payload` on a bad token, otherwise apply the
remote description, best-effort-add the carried candidates, and return
`true`.  No session field is assigned anywhere in the function. -/
def setAnswerFromString (st : MPState) (tok : List Char) (fails : Json → Bool) : AnswerOut :=
  if st.pc.isNone then { st := st, result := Except.error MPErr.noActivePC, attempted := [] }
  else
    match decodePayload tok with
    | none => { st := st, result := Except.error MPErr.invalidAnswer, attempted := [] }
    | some p =>
      if truthy p && truthyOpt (getProp p "desc".toList) then
        let attempted :=
          match getProp p "candidates".toList with
          | some (Json.arr cs) => attemptCandidates fails cs
          | _ => []
        { st := st, result := Except.ok true, attempted := attempted }
      else { st := st, result := Except.error MPErr.invalidAnswer, attempted := [] }

/-- An offer or answer bundle: a description together with its candidates,
packaged as `{ desc, candidates }` (lines 75 and 119). -/
def offerBundle (d : Json) (cs : List Json) : Json :=
  Json.obj [("desc".toList, d), ("candidates".toList, Json.arr cs)]

theorem attemptCandidates_all (fails : Json → Bool) :
    ∀ cs : List Json, attemptCandidates fails cs = cs := by
  intro cs
  induction cs with
  | nil => rfl
  | cons c rest ih =>
    cases h : fails c <;> simp [attemptCandidates, addIceCandidate, h, ih]

/-- The log entries emitted by one candidate loop (lines 110-112 and
143-145), per candidate outcome.  Both `catch` blocks hold only the comment
`/* ignore */` and neither the success nor the failure path contains a
`log`/`err` call, so each iteration contributes nothing. -/
def candidateLoopLogs (fails : Json → Bool) : List Json → List Json
  | [] => []
  | c :: rest =>
    match addIceCandidate fails c with
    | Except.ok _ => candidateLoopLogs fails rest
    | Except.error _ => candidateLoopLogs fails rest

theorem candidateLoopLogs_nil (fails : Json → Bool) :
    ∀ cs : List Json, candidateLoopLogs fails cs = [] := by
  intro cs
  induction cs with
  | nil => rfl
  | cons c rest ih =>
    cases h : fails c <;> simp [candidateLoopLogs, addIceCandidate, h, ih]

/-- C1: for every bundle consisting of a description object and a sequence
of candidate objects, decoding the token produced by encoding the bundle
yields the bundle itself: `decodePayload(encodePayload(B)) == B`. -/
theorem C1_codec_roundtrip (d : Json) (cs : List Json) :
    decodePayload (encodePayload (offerBundle d cs)) = some (offerBundle d cs) :=
  decodePayload_encodePayload (offerBundle d cs)

/-- C2: the token for a bundle is bit-exactly the base64 encoding of the
UTF-8 bytes of the JSON text of an object with exactly the keys `desc` and
`candidates`; `createLobby` builds exactly that two-key payload (line 75)
and encodes it this way, and decode reverses exactly this transform. -/
theorem C2_wire_format (st : MPState) (env : HostEnv) :
    (createLobby st env).payload = offerBundle env.localDesc env.candidates
    ∧ (createLobby st env).encoded
        = base64Encode (utf8Encode (stringify (offerBundle env.localDesc env.candidates)))
    ∧ (∀ (d : Json) (cs : List Json),
        encodePayload (offerBundle d cs)
          = base64Encode (utf8Encode (stringify (offerBundle d cs)))
        ∧ decodePayload (base64Encode (utf8Encode (stringify (offerBundle d cs))))
          = some (offerBundle d cs)) := by
  refine ⟨rfl, rfl, fun d cs => ⟨rfl, ?_⟩⟩
  exact decodePayload_encodePayload (offerBundle d cs)

/-- C3: the bounded gathering wait always resolves — never rejects — no
later than its bound, resolves immediately when gathering is already
complete, and the session operations `createLobby` (line 73) and
`joinFromOfferString` (line 117) invoke it with a 5000 ms bound. -/
theorem C3_bounded_wait :
    (∀ (T : Nat) (env : GatheringEnv), waitForIceGatheringComplete env T ≤ T)
    ∧ (∀ (T : Nat) (env : GatheringEnv), env.initiallyComplete = true →
        waitForIceGatheringComplete env T = 0)
    ∧ (∀ (st : MPState) (env : HostEnv), (createLobby st env).gatherTimeout = 5000)
    ∧ (∀ (st : MPState) (tok : List Char) (env : JoinEnv) (p : Json),
        decodePayload tok = some p →
        (truthy p && truthyOpt (getProp p "desc".toList)) = true →
        (joinFromOfferString st tok env).gatherTimeout = some 5000) := by
  refine ⟨?_, ?_, ?_, ?_⟩
  · intro T env
    rw [waitForIceGatheringComplete]
    cases h : env.initiallyComplete
    · simp only [Bool.false_eq_true, if_false]
      cases env.completeEventAt
      · exact le_refl T
      · exact min_le_right _ _
    · simp
  · intro T env h
    rw [waitForIceGatheringComplete, h]
    simp
  · intro st env
    rfl
  · intro st tok env p hdec htr
    rw [joinFromOfferString, hdec]
    simp only [htr, if_true]

/-- Sample bundle, token and environments for the concrete witnesses. -/
def sampleBundle : Json := offerBundle (Json.num 1) [Json.num 2, Json.num 3]

/-- Token encoding `sampleBundle`. -/
def sampleToken : List Char := encodePayload sampleBundle

/-- A join environment whose transport rejects every candidate. -/
def sampleJoinEnv : JoinEnv :=
  { localDesc := Json.num 7
    candidates := []
    addIceFails := fun _ => true
    origin := "https://h".toList
    pathname := "/g".toList }

/-- A host environment with one gathered candidate. -/
def sampleHostEnv : HostEnv :=
  { localDesc := Json.num 7
    candidates := [Json.num 9]
    origin := "https://h".toList
    pathname := "/g".toList }

/-- A session state with an open channel. -/
def openMP : MPState :=
  { pc := some ()
    dc := some { readyState := DCState.openState }
    isHost := true
    connected := true
    gatheredCandidates := [] }

theorem C3_bounded_wait_witness :
    waitForIceGatheringComplete ⟨false, some 3⟩ 7 ≤ 7
    ∧ waitForIceGatheringComplete ⟨true, none⟩ 7 = 0
    ∧ (createLobby initialMP sampleHostEnv).gatherTimeout = 5000
    ∧ (joinFromOfferString initialMP sampleToken sampleJoinEnv).gatherTimeout = some 5000 :=
  ⟨C3_bounded_wait.1 7 ⟨false, some 3⟩,
   C3_bounded_wait.2.1 7 ⟨true, none⟩ rfl,
   C3_bounded_wait.2.2.1 initialMP sampleHostEnv,
   C3_bounded_wait.2.2.2 initialMP sampleToken sampleJoinEnv sampleBundle
     (by decide) (by decide)⟩

/-- C4: `send` never raises an exception to the caller (the embedding is a
total function; the `try`/`catch` at line 166 converts a transport throw
into a return value): it returns `false` when the channel is absent or not
open, `false` when the underlying transmission throws, and `true`
otherwise. -/
theorem C4_send_never_raises (st : MPState) (thr : Bool) (ty : List Char)
    (payload : Json) (now : Nat) :
    ((st.dc = none ∨ ∃ dc, st.dc = some dc ∧ dc.readyState ≠ DCState.openState) →
      (MP.send st thr ty payload now).1 = false)
    ∧ (thr = true → (MP.send st thr ty payload now).1 = false)
    ∧ ((∃ dc, st.dc = some dc ∧ dc.readyState = DCState.openState) → thr = false →
      (MP.send st thr ty payload now).1 = true) := by
  refine ⟨?_, ?_, ?_⟩
  · rintro (h | ⟨dc, hdc, hne⟩)
    · rw [MP.send, h]
    · rw [MP.send, hdc]
      simp [hne]
  · intro h
    subst h
    rw [MP.send]
    cases st.dc with
    | none => rfl
    | some dc => simp
  · rintro ⟨dc, hdc, hopen⟩ hthr
    subst hthr
    rw [MP.send, hdc]
    simp [hopen]

theorem C4_send_never_raises_witness :
    (MP.send initialMP false "chat".toList (Json.str "hi".toList) 5).1 = false
    ∧ (MP.send openMP true "chat".toList (Json.str "hi".toList) 5).1 = false
    ∧ (MP.send openMP false "chat".toList (Json.str "hi".toList) 5).1 = true :=
  ⟨(C4_send_never_raises initialMP false "chat".toList (Json.str "hi".toList) 5).1
      (Or.inl rfl),
   (C4_send_never_raises openMP true "chat".toList (Json.str "hi".toList) 5).2.1 rfl,
   (C4_send_never_raises openMP false "chat".toList (Json.str "hi".toList) 5).2.2
      ⟨{ readyState := DCState.openState }, rfl, rfl⟩ rfl⟩

/-- C5 fails as the claim states it: the envelope field holding the send
time is named `t` (line 166: `{ type, payload, t: Date.now() }`), not
`timestamp`.  At a concrete send on an open channel the transmitted frame
differs from the `{type, payload, timestamp}` serialization the claim
prescribes, and the transmitted envelope has no `timestamp` key at all —
its time lives under `t`. -/
theorem C5_counterexample :
    (MP.send openMP false "chat".toList (Json.obj [("text".toList, Json.str "hi".toList)])
        123).2
      ≠ [stringify (Json.obj [("type".toList, Json.str "chat".toList),
          ("payload".toList, Json.obj [("text".toList, Json.str "hi".toList)]),
          ("timestamp".toList, Json.num 123)])]
    ∧ getProp (sendEnvelope "chat".toList
        (Json.obj [("text".toList, Json.str "hi".toList)]) 123) "timestamp".toList = none
    ∧ getProp (sendEnvelope "chat".toList
        (Json.obj [("text".toList, Json.str "hi".toList)]) 123) "t".toList
      = some (Json.num 123) := by
  refine ⟨by decide, by decide, by decide⟩

theorem getProp_sendEnvelope (ty : List Char) (payload : Json) (now : Nat) :
    getProp (sendEnvelope ty payload now) "type".toList = some (Json.str ty)
    ∧ getProp (sendEnvelope ty payload now) "payload".toList = some payload
    ∧ getProp (sendEnvelope ty payload now) "t".toList = some (Json.num (now : Int)) := by
  refine ⟨rfl, ?_, rfl⟩
  rw [sendEnvelope, getProp]
  rfl

/-- C5 (amended): on an open channel with a transport that does not throw,
the transmitted frame is the serialization of the envelope with exactly the
fields `type`, `payload` and `t` — `t`, not `timestamp`, holding the current
time — and the receiver's generic `message` event delivers exactly that
`{type, payload, t}` envelope (first notification of the frame). -/
theorem C5_envelope (st : MPState) (ty : List Char) (payload : Json) (now : Nat)
    (dc : DataChannel) (hdc : st.dc = some dc)
    (hopen : dc.readyState = DCState.openState) :
    (MP.send st false ty payload now).2 = [stringify (sendEnvelope ty payload now)]
    ∧ (onMessage (stringify (sendEnvelope ty payload now))).head?
        = some (Ev.message (sendEnvelope ty payload now)) := by
  constructor
  · rw [MP.send, hdc]
    simp [hopen]
  · rw [onMessage, jsonParse_stringify]
    rfl

theorem C5_envelope_witness :
    (MP.send openMP false "chat".toList (Json.str "hi".toList) 123).2
      = [stringify (sendEnvelope "chat".toList (Json.str "hi".toList) 123)]
    ∧ (onMessage (stringify (sendEnvelope "chat".toList (Json.str "hi".toList) 123))).head?
      = some (Ev.message (sendEnvelope "chat".toList (Json.str "hi".toList) 123)) :=
  C5_envelope openMP "chat".toList (Json.str "hi".toList) 123
    { readyState := DCState.openState } rfl rfl

/-- C6 fails as the claim states it: a successfully parsed frame does not
always fire two notifications.  The frame `"{}"` parses to an envelope with
no `type` field, so only the generic `message` event fires (the type-scoped
emit at line 159 is guarded by `msg && msg.type`). -/
theorem C6_counterexample :
    jsonParse "\x7b\x7d".toList = some (Json.obj [])
    ∧ onMessage "\x7b\x7d".toList = [Ev.message (Json.obj [])]
    ∧ (onMessage "\x7b\x7d".toList).length ≠ 2 := by
  refine ⟨by decide, by decide, by decide⟩

/-- C6 (amended): for every successfully parsed inbound frame whose envelope
is truthy and carries a truthy `type` field, exactly two notifications fire
back-to-back and in order — the generic `message` event with the full
envelope, then the `"msg:" + type` event with only the payload — before any
event of the next frame (a parsed frame without such a `type` fires only the
`message` event); frames are dispatched strictly in sequence, and for a
sequence of sends on one open channel the receiver's `message` events fire
in the senders' relative order. -/
theorem C6_dispatch_order :
    (∀ (data : List Char) (msg : Json), jsonParse data = some msg →
      truthy msg = true → truthyOpt (getProp msg "type".toList) = true →
      onMessage data
        = [Ev.message msg,
           Ev.typed ("msg:".toList ++ jsToString ((getProp msg "type".toList).getD Json.null))
             (getProp msg "payload".toList)])
    ∧ (∀ (data : List Char) (msg : Json), jsonParse data = some msg →
      (truthy msg && truthyOpt (getProp msg "type".toList)) = false →
      onMessage data = [Ev.message msg])
    ∧ (∀ frames : List (List Char),
        dispatchList frames = (frames.map onMessage).flatten
        ∧ messageEvents (dispatchList frames) = frames.filterMap jsonParse)
    ∧ (∀ sends : List ((List Char × Json) × Nat),
        messageEvents (dispatchList (sends.map
            (fun s => stringify (sendEnvelope s.1.1 s.1.2 s.2))))
          = sends.map (fun s => sendEnvelope s.1.1 s.1.2 s.2)) := by
  have hdisp : ∀ frames : List (List Char),
      dispatchList frames = (frames.map onMessage).flatten
      ∧ messageEvents (dispatchList frames) = frames.filterMap jsonParse := by
    intro frames
    induction frames with
    | nil => exact ⟨rfl, rfl⟩
    | cons d rest ih =>
      constructor
      · rw [dispatchList, List.map_cons, List.flatten_cons, ih.1]
      · rw [dispatchList, List.filterMap_cons, messageEvents, List.filterMap_append]
        rw [show List.filterMap
              (fun e => match e with | Ev.message m => some m | _ => none)
              (dispatchList rest) = messageEvents (dispatchList rest) from rfl, ih.2]
        rw [onMessage]
        cases h : jsonParse d with
        | none => rfl
        | some msg =>
          simp only [List.filterMap_cons]
          cases truthy msg && truthyOpt (getProp msg "type".toList) <;> rfl
  refine ⟨?_, ?_, hdisp, ?_⟩
  · intro data msg hparse htr hty
    rw [onMessage, hparse]
    have hty2 : truthyOpt (getProp msg ('t' :: 'y' :: 'p' :: 'e' :: [])) = true := hty
    simp [htr, hty2]
  · intro data msg hparse hfalse
    rw [onMessage, hparse]
    have hfalse2 :
        (truthy msg && truthyOpt (getProp msg ('t' :: 'y' :: 'p' :: 'e' :: []))) = false :=
      hfalse
    simp [hfalse2]
  · intro sends
    rw [(hdisp _).2]
    induction sends with
    | nil => rfl
    | cons s rest ih =>
      rw [List.map_cons, List.filterMap_cons, jsonParse_stringify, List.map_cons, ih]

theorem C6_dispatch_order_witness :
    (onMessage (stringify (sendEnvelope "chat".toList (Json.str "hi".toList) 5))
      = [Ev.message (sendEnvelope "chat".toList (Json.str "hi".toList) 5),
         Ev.typed "msg:chat".toList (some (Json.str "hi".toList))])
    ∧ onMessage "\x7b\x7d".toList = [Ev.message (Json.obj [])] := by
  have h1 := C6_dispatch_order.1
    (stringify (sendEnvelope "chat".toList (Json.str "hi".toList) 5))
    (sendEnvelope "chat".toList (Json.str "hi".toList) 5)
    (by decide) (by decide) (by decide)
  have h2 := C6_dispatch_order.2.1 "\x7b\x7d".toList (Json.obj []) (by decide) (by decide)
  exact ⟨by rw [h1]; decide, h2⟩

/-- C7: an inbound frame whose text fails to parse as JSON — `jsonAccepts`
is the exact `JSON.parse` acceptor, so the hypothesis covers precisely the
frames the engine rejects — is dropped: no `message` and no type-scoped
event fires for it, the handler — a total function whose `catch` only
logs — propagates no exception, and subsequent frames are dispatched exactly
as if the malformed frame had never arrived. -/
theorem C7_malformed_frame_dropped (data : List Char) (h : jsonAccepts data = false) :
    onMessage data = []
    ∧ ∀ frames : List (List Char), dispatchList (data :: frames) = dispatchList frames := by
  have h0 : onMessage data = [] := by
    rw [onMessage, jsonAccepts_false_parse_none data h]
  exact ⟨h0, fun frames => by rw [dispatchList, h0, List.nil_append]⟩

theorem C7_malformed_frame_dropped_witness :
    onMessage "\x7bnot json".toList = []
    ∧ dispatchList ["\x7bnot json".toList,
        stringify (sendEnvelope "chat".toList (Json.str "hi".toList) 5)]
      = dispatchList [stringify (sendEnvelope "chat".toList (Json.str "hi".toList) 5)] :=
  ⟨(C7_malformed_frame_dropped "\x7bnot json".toList (by decide)).1,
   (C7_malformed_frame_dropped "\x7bnot json".toList (by decide)).2
     [stringify (sendEnvelope "chat".toList (Json.str "hi".toList) 5)]⟩

/-- C8: when the token fails base64 decoding (`atob`, with forgiving
whitespace stripping), or its decoded text fails `JSON.parse` (the exact
acceptor `jsonAccepts`), or the decoded value lacks a (truthy) description,
`joinFromOfferString` throws `Invalid offer payload` and the session state
is unchanged — the check at lines 96-97 runs before any assignment, so no
peer connection, role or candidate buffer is created or modified, and in
particular an unset session stays unset. -/
theorem C8_join_bad_token (st : MPState) (tok : List Char) (env : JoinEnv)
    (h : b64ToUtf8 tok = none
      ∨ (∃ txt, b64ToUtf8 tok = some txt ∧ jsonAccepts txt = false)
      ∨ (∃ p, decodePayload tok = some p
          ∧ (truthy p && truthyOpt (getProp p "desc".toList)) = false)) :
    joinFromOfferString st tok env
      = { st := st
          result := Except.error MPErr.invalidOffer
          attempted := []
          gatherTimeout := none
          events := [] } := by
  have hkey : ∀ p : Json, decodePayload tok = some p →
      (truthy p && truthyOpt (getProp p "desc".toList)) = false := by
    intro p hp
    rcases h with h1 | ⟨txt, h2, h3⟩ | ⟨q, h4, h5⟩
    · rw [decodePayload, h1] at hp
      exact Option.noConfusion hp
    · rw [decodePayload, h2, Option.some_bind, jsonAccepts_false_parse_none txt h3] at hp
      exact Option.noConfusion hp
    · rw [h4] at hp
      injection hp with hpq
      exact hpq ▸ h5
  rw [joinFromOfferString]
  cases hdec : decodePayload tok with
  | none => rfl
  | some p => simp only [hkey p hdec, Bool.false_eq_true, if_false]

theorem C8_join_bad_token_witness :
    joinFromOfferString initialMP "not-base64".toList sampleJoinEnv
      = { st := initialMP
          result := Except.error MPErr.invalidOffer
          attempted := []
          gatherTimeout := none
          events := [] }
    ∧ (joinFromOfferString initialMP "not-base64".toList sampleJoinEnv).st.pc = none :=
  have h := C8_join_bad_token initialMP "not-base64".toList sampleJoinEnv
    (Or.inl (by decide))
  ⟨h, by rw [h]; rfl⟩

/-- C9 fails as the claim states it: a failing candidate is skipped but not
logged.  Both `catch` blocks (lines 111 and 144) hold only `/* ignore */`,
so with a transport that rejects every candidate, the candidate is still
attempted and the loop emits no log entry at all for the failure. -/
theorem C9_counterexample :
    addIceCandidate (fun _ => true) (Json.num 2) = Except.error ()
    ∧ attemptCandidates (fun _ => true) [Json.num 2] = [Json.num 2]
    ∧ candidateLoopLogs (fun _ => true) [Json.num 2] = [] := by
  exact ⟨rfl, rfl, rfl⟩

/-- C9 (amended): candidate application is best-effort in both the offer
application (`joinFromOfferString`, lines 110-112) and the answer
application (`setAnswerFromString`, lines 143-145): whatever the pattern of
individual `addIceCandidate` failures, every carried candidate is attempted
in order — a failing one is silently ignored and skipped, never aborting the
loop, and nothing is logged for it (the `catch` blocks are empty) — and the
operation completes with its normal result. -/
theorem C9_candidates_best_effort :
    (∀ (st : MPState) (tok : List Char) (env : JoinEnv) (p : Json) (cs : List Json),
      decodePayload tok = some p →
      (truthy p && truthyOpt (getProp p "desc".toList)) = true →
      getProp p "candidates".toList = some (Json.arr cs) →
      (joinFromOfferString st tok env).attempted = cs
      ∧ candidateLoopLogs env.addIceFails cs = []
      ∧ ∃ r, (joinFromOfferString st tok env).result = Except.ok r)
    ∧ (∀ (st : MPState) (tok : List Char) (fails : Json → Bool) (p : Json) (cs : List Json),
      st.pc.isSome = true →
      decodePayload tok = some p →
      (truthy p && truthyOpt (getProp p "desc".toList)) = true →
      getProp p "candidates".toList = some (Json.arr cs) →
      (setAnswerFromString st tok fails).attempted = cs
      ∧ candidateLoopLogs fails cs = []
      ∧ (setAnswerFromString st tok fails).result = Except.ok true) := by
  constructor
  · intro st tok env p cs hdec htr hcand
    rw [joinFromOfferString, hdec]
    simp only [htr, if_true, hcand, attemptCandidates_all, candidateLoopLogs_nil]
    exact ⟨trivial, trivial, _, rfl⟩
  · intro st tok fails p cs hpc hdec htr hcand
    rw [setAnswerFromString]
    simp only [Option.isNone_iff_eq_none]
    rw [if_neg (by simp [Option.isSome_iff_ne_none] at hpc; exact hpc), hdec]
    simp only [htr, if_true, hcand, attemptCandidates_all, candidateLoopLogs_nil]
    exact ⟨trivial, trivial, trivial⟩

theorem C9_candidates_best_effort_witness :
    (joinFromOfferString initialMP sampleToken sampleJoinEnv).attempted
        = [Json.num 2, Json.num 3]
    ∧ candidateLoopLogs sampleJoinEnv.addIceFails [Json.num 2, Json.num 3] = []
    ∧ (∃ r, (joinFromOfferString initialMP sampleToken sampleJoinEnv).result = Except.ok r)
    ∧ (setAnswerFromString openMP sampleToken (fun _ => true)).attempted
        = [Json.num 2, Json.num 3]
    ∧ (setAnswerFromString openMP sampleToken (fun _ => true)).result = Except.ok true :=
  have h1 := C9_candidates_best_effort.1 initialMP sampleToken sampleJoinEnv sampleBundle
    [Json.num 2, Json.num 3] (by decide) (by decide) (by decide)
  have h2 := C9_candidates_best_effort.2 openMP sampleToken (fun _ => true) sampleBundle
    [Json.num 2, Json.num 3] (by decide) (by decide) (by decide) (by decide)
  ⟨h1.1, h1.2.1, h1.2.2, h2.1, h2.2.2⟩

/-- C10: `close()` is idempotent from every state: any number n ≥ 1 of
consecutive calls leaves the session state — channel reference, peer
connection, connected flag, role, candidate buffer — identical to the state
after a single call; and no call raises (the embedding is a total function:
WebRTC `close()` does not throw, and the `try`/`catch` guards and the
per-subscriber guard in `_emit` swallow anything else). -/
theorem C10_close_idempotent (st : MPState) (n : Nat) (h : 1 ≤ n) :
    closeIter n st = (MP.close st).1 := by
  induction n generalizing st with
  | zero => omega
  | succ n ih =>
    cases n with
    | zero => rfl
    | succ m =>
      rw [closeIter, ih (MP.close st).1 (by omega)]
      rfl

theorem C10_close_idempotent_witness :
    closeIter 3 openMP = (MP.close openMP).1 :=
  C10_close_idempotent openMP 3 (by decide)
